import Mathlib

/-!
# Verification of the request-coalescing/caching core

Shallow embedding of the request coalescing and caching layer found in
`src/utils/logger.ts` (`RequestCoalescer`, `CachedRequestCoalescer`,
`createKey`) of the racing-event front-end.

JavaScript promises are modelled by identifiers (`Nat`): each started
underlying operation gets a fresh promise id; two callers observe the
identical outcome iff they hold the same promise id.  The single-threaded
cooperative scheduling of the original is modelled by splitting `execute`
into its synchronous dispatch (everything the method does before returning
the promise: cache check, pending check, registration and invocation of the
thunk) and the settlement continuation installed with `.then`/`.catch`
(which fires when the underlying operation settles).  The continuation
closes over `key` only — it deletes the pending-map entry for `key`
unconditionally, exactly as the source does.  `Date.now()` becomes an
explicit `now : Nat` argument.  JS `Map`s become association lists
(`Assoc`), with `Option Nat` for the optional numeric configuration knobs
(`ttl`, `maxSize`) and JS truthiness (`undefined` and `0` are falsy)
modelled by `Assoc`-independent `OptNat.truthy`.
-/

/-! ## Association-list maps (model of JS `Map`) -/

namespace Assoc

variable {K V : Type} [DecidableEq K]

/-- `Map.get` -/
def find : List (K × V) → K → Option V
  | [], _ => none
  | (k', v) :: rest, k => if k' = k then some v else find rest k

/-- `Map.delete` -/
def eraseKey (m : List (K × V)) (k : K) : List (K × V) :=
  m.filter (fun p => decide (p.1 ≠ k))

/-- `Map.set` (position of the binding is unobservable through `find`) -/
def setKey (m : List (K × V)) (k : K) (v : V) : List (K × V) :=
  eraseKey m k ++ [(k, v)]

/-- the key multiset of the map -/
def keys (m : List (K × V)) : List K := m.map Prod.fst

@[simp] theorem find_nil (k : K) : find ([] : List (K × V)) k = none := rfl

theorem find_cons (k' : K) (v : V) (rest : List (K × V)) (k : K) :
    find ((k', v) :: rest) k = if k' = k then some v else find rest k := rfl

@[simp] theorem eraseKey_nil (k : K) : eraseKey ([] : List (K × V)) k = [] := rfl

theorem eraseKey_cons (k' : K) (v : V) (rest : List (K × V)) (k : K) :
    eraseKey ((k', v) :: rest) k =
      if k' = k then eraseKey rest k else (k', v) :: eraseKey rest k := by
  by_cases h : k' = k <;> simp [eraseKey, List.filter_cons, h]

@[simp] theorem find_eraseKey (m : List (K × V)) (k j : K) :
    find (eraseKey m k) j = if j = k then none else find m j := by
  induction m with
  | nil => simp
  | cons p rest ih =>
    obtain ⟨k', v⟩ := p
    rw [eraseKey_cons]
    by_cases hk : k' = k
    · subst hk
      rw [if_pos rfl, ih, find_cons]
      by_cases hj : j = k'
      · simp [hj]
      · have hj' : ¬ k' = j := fun h => hj h.symm
        simp [hj, hj']
    · rw [if_neg hk, find_cons, find_cons]
      by_cases hj : k' = j
      · subst hj
        simp [hk]
      · simp [hj, ih]

theorem find_append (m₁ m₂ : List (K × V)) (k : K) :
    find (m₁ ++ m₂) k = ((find m₁ k).rec (find m₂ k) (fun v => some v)) := by
  induction m₁ with
  | nil => simp
  | cons p rest ih =>
    obtain ⟨k', v⟩ := p
    by_cases h : k' = k
    · simp [find_cons, h]
    · simp [find_cons, h, ih]

@[simp] theorem find_setKey_self (m : List (K × V)) (k : K) (v : V) :
    find (setKey m k v) k = some v := by
  rw [setKey, find_append, find_eraseKey, if_pos rfl]
  simp [find_cons]

theorem find_setKey_ne (m : List (K × V)) (k : K) (v : V) (j : K) (h : j ≠ k) :
    find (setKey m k v) j = find m j := by
  rw [setKey, find_append, find_eraseKey, if_neg h]
  cases hf : find m j with
  | none => simp [find_cons, Ne.symm h]
  | some w => simp

theorem mem_keys_iff_find_isSome (m : List (K × V)) (k : K) :
    k ∈ keys m ↔ (find m k).isSome := by
  induction m with
  | nil => simp [keys]
  | cons p rest ih =>
    obtain ⟨k', v⟩ := p
    rw [find_cons]
    by_cases h : k' = k
    · simp [keys, h]
    · simp only [keys, List.map_cons, List.mem_cons] at ih ⊢
      simp [h, Ne.symm h, ih]

theorem keys_eraseKey (m : List (K × V)) (k : K) :
    keys (eraseKey m k) = (keys m).filter (fun j => decide (j ≠ k)) := by
  induction m with
  | nil => rfl
  | cons p rest ih =>
    obtain ⟨k', v⟩ := p
    rw [eraseKey_cons]
    by_cases h : k' = k
    · rw [if_pos h]
      have hstep : (keys ((k', v) :: rest)).filter (fun j => decide (j ≠ k))
          = (keys rest).filter (fun j => decide (j ≠ k)) := by
        simp [keys, List.filter_cons, h]
      rw [hstep, ← ih]
    · rw [if_neg h]
      have hstep : (keys ((k', v) :: rest)).filter (fun j => decide (j ≠ k))
          = k' :: (keys rest).filter (fun j => decide (j ≠ k)) := by
        simp [keys, List.filter_cons, h]
      rw [hstep, ← ih]
      simp [keys]

theorem keys_setKey (m : List (K × V)) (k : K) (v : V) :
    keys (setKey m k v) = keys (eraseKey m k) ++ [k] := by
  simp [setKey, keys]

theorem nodup_keys_eraseKey {m : List (K × V)} (h : (keys m).Nodup) (k : K) :
    (keys (eraseKey m k)).Nodup := by
  rw [keys_eraseKey]
  exact h.filter _

theorem nodup_keys_setKey {m : List (K × V)} (h : (keys m).Nodup) (k : K) (v : V) :
    (keys (setKey m k v)).Nodup := by
  rw [keys_setKey]
  refine List.Nodup.append (nodup_keys_eraseKey h k) (List.nodup_singleton k) ?_
  intro j hj hj'
  simp only [List.mem_singleton] at hj'
  subst hj'
  rw [keys_eraseKey] at hj
  simp at hj

theorem eraseKey_of_not_mem {m : List (K × V)} {k : K} (h : ¬ k ∈ keys m) :
    eraseKey m k = m := by
  induction m with
  | nil => rfl
  | cons p rest ih =>
    obtain ⟨k', v⟩ := p
    simp only [keys, List.map_cons, List.mem_cons] at h
    push_neg at h
    rw [eraseKey_cons, if_neg (fun hh => h.1 hh.symm)]
    congr 1
    exact ih (by simpa [keys] using h.2)

theorem length_eraseKey_of_mem {m : List (K × V)} (hnd : (keys m).Nodup) {k : K}
    (h : k ∈ keys m) : (eraseKey m k).length + 1 = m.length := by
  induction m with
  | nil => simp [keys] at h
  | cons p rest ih =>
    obtain ⟨k', v⟩ := p
    simp only [keys, List.map_cons, List.nodup_cons] at hnd
    rw [eraseKey_cons]
    by_cases hk : k' = k
    · subst hk
      have hnm : ¬ k' ∈ keys rest := hnd.1
      rw [if_pos rfl, eraseKey_of_not_mem hnm]
      rfl
    · simp only [keys, List.map_cons, List.mem_cons] at h
      rcases h with h | h
      · exact absurd h.symm hk
      · rw [if_neg hk]
        simp only [List.length_cons]
        rw [← ih hnd.2 h]

end Assoc

/-! ## Promise outcomes -/

/-- Outcome of a settled promise: `Except.ok` for fulfilment,
`Except.error` for rejection.  The error type is abstract, matching the
source which is generic over what `operation` may throw. -/
abbrev Outcome (E R : Type) := Except E R

/-- JS truthiness of an optional number (`undefined` and `0` are falsy). -/
def OptNat.truthy : Option Nat → Bool
  | none => false
  | some n => decide (n ≠ 0)

@[simp] theorem OptNat.truthy_none : OptNat.truthy none = false := rfl

@[simp] theorem OptNat.truthy_some (n : Nat) :
    OptNat.truthy (some n) = decide (n ≠ 0) := rfl

/-! ## `RequestCoalescer` (src/utils/logger.ts, lines 231-289) -/

namespace RequestCoalescer

/-- What a call to `execute` hands back to its caller. -/
inductive Res where
  /-- an already-pending promise for this key was returned; the caller's
  thunk was not invoked -/
  | attached (pid : Nat)
  /-- a fresh operation was started; its promise id is returned -/
  | started (pid : Nat)
deriving DecidableEq, Repr

/-- State of a `RequestCoalescer` instance.  `pendingRequests` maps keys to
promise ids; `nextId` is the fresh-promise supply; `invoked` logs, in
order, the promise ids of every invocation of a caller-supplied thunk. -/
structure State (K : Type) where
  pendingRequests : List (K × Nat)
  nextId : Nat
  invoked : List Nat
deriving Repr

variable {K : Type} [DecidableEq K]

/-- A fresh coalescer (`new RequestCoalescer()`). -/
def State.init : State K := ⟨[], 0, []⟩

/-- Synchronous dispatch of `execute(key, request)`: return the pending
promise if one exists; otherwise invoke `request` once, wrap it with the
settlement continuation, register it, and return it. -/
def execute (s : State K) (key : K) : State K × Res :=
  match Assoc.find s.pendingRequests key with
  | some p => (s, Res.attached p)
  | none =>
      let pid := s.nextId
      ({ pendingRequests := Assoc.setKey s.pendingRequests key pid,
         nextId := pid + 1,
         invoked := s.invoked ++ [pid] }, Res.started pid)

/-- The settlement continuation installed by `execute` for `key`
(`.then`: delete then return the result; `.catch`: delete then rethrow).
It deletes the pending entry for `key` unconditionally and propagates the
outcome unmodified. -/
def settle {E R : Type} (s : State K) (key : K) (outcome : Outcome E R) :
    State K × Outcome E R :=
  ({ s with pendingRequests := Assoc.eraseKey s.pendingRequests key }, outcome)

/-- `isPending(key)` -/
def isPending (s : State K) (key : K) : Bool :=
  (Assoc.find s.pendingRequests key).isSome

/-- `getPendingCount()` -/
def getPendingCount (s : State K) : Nat :=
  s.pendingRequests.length

/-- `clear(key)` -/
def clear (s : State K) (key : K) : State K :=
  { s with pendingRequests := Assoc.eraseKey s.pendingRequests key }

/-- `clearAll()` -/
def clearAll (s : State K) : State K :=
  { s with pendingRequests := [] }

/-- `n` further `execute` calls for the same key, all issued before any
settlement (the synchronous dispatches run back to back); returns the
final state and the list of promise results handed to the callers. -/
def execMany (s : State K) (key : K) : Nat → State K × List Res
  | 0 => (s, [])
  | n + 1 =>
      let (s₁, r) := execute s key
      let (s₂, rs) := execMany s₁ key n
      (s₂, r :: rs)

end RequestCoalescer

/-! ## `CachedRequestCoalescer` (src/utils/logger.ts, lines 299-438) -/

namespace CachedRequestCoalescer

/-- `CachedCoalescerOptions`: both knobs optional, checked with JS
truthiness (`if (this.options.ttl)` / `if (this.options.maxSize && ...)`),
so `undefined` and `0` both disable the corresponding feature. -/
structure Options where
  ttl : Option Nat := none
  maxSize : Option Nat := none

/-- `CacheEntry` (the optional `promise` field of the source interface is
never written by any method of the class, so it is omitted). -/
structure CacheEntry (R : Type) where
  result : R
  timestamp : Nat
deriving DecidableEq, Repr

/-- What a call to `execute` hands back to its caller. -/
inductive Res (R : Type) where
  /-- a valid cache entry's stored result was returned immediately -/
  | cachedHit (r : R)
  /-- an already-pending promise for this key was returned -/
  | attached (pid : Nat)
  /-- a fresh operation was started; its promise id is returned -/
  | started (pid : Nat)
deriving DecidableEq, Repr

/-- State of a `CachedRequestCoalescer` instance: the result cache, the
pending-promise map, the LRU access-order list (least recently used at the
head), the fresh-promise supply and the invocation log. -/
structure State (K R : Type) where
  cache : List (K × CacheEntry R)
  pendingRequests : List (K × Nat)
  accessOrder : List K
  nextId : Nat
  invoked : List Nat
deriving Repr

variable {K R E : Type} [DecidableEq K]

/-- A fresh instance (`new CachedRequestCoalescer(options)`). -/
def State.init : State K R := ⟨[], [], [], 0, []⟩

/-- `isCacheValid(entry)`: `false` when `ttl` is falsy, else
`Date.now() - entry.timestamp < ttl`. -/
def isCacheValid (o : Options) (now : Nat) (e : CacheEntry R) : Bool :=
  if OptNat.truthy o.ttl then decide (now - e.timestamp < o.ttl.getD 0)
  else false

/-- `updateAccessOrder(key)`: remove the first occurrence of `key` (the
`indexOf`/`splice` pair, a no-op when absent) and push it to the back. -/
def updateAccessOrder (ao : List K) (key : K) : List K :=
  ao.erase key ++ [key]

/-- The eviction step at the top of `setCacheEntry`: when `maxSize` is
truthy and the cache is at or above capacity, delete the entry of the key
at the front of the access order (`accessOrder[0]`, skipped when the
sequence is empty) and drop that front element (`shift`). -/
def evictIfFull (o : Options) (s : State K R) : State K R :=
  if OptNat.truthy o.maxSize ∧ o.maxSize.getD 0 ≤ s.cache.length then
    match s.accessOrder with
    | lruKey :: rest =>
        { s with cache := Assoc.eraseKey s.cache lruKey, accessOrder := rest }
    | [] => s
  else s

/-- `setCacheEntry(key, result)`: evict if at capacity, then store the
entry with the current timestamp and mark the key most recently used. -/
def setCacheEntry (o : Options) (now : Nat) (s : State K R) (key : K)
    (result : R) : State K R :=
  { evictIfFull o s with
    cache := Assoc.setKey (evictIfFull o s).cache key ⟨result, now⟩,
    accessOrder := updateAccessOrder (evictIfFull o s).accessOrder key }

/-- The part of the dispatch of `execute(key, request)` that runs once the
cache check has failed: attach to a pending promise if one exists,
otherwise invoke `request` once and register the wrapped promise. -/
def executeMiss (s : State K R) (key : K) : State K R × Res R :=
  match Assoc.find s.pendingRequests key with
  | some p => (s, Res.attached p)
  | none =>
      let pid := s.nextId
      ({ s with
         pendingRequests := Assoc.setKey s.pendingRequests key pid,
         nextId := pid + 1,
         invoked := s.invoked ++ [pid] }, Res.started pid)

/-- Synchronous dispatch of `execute(key, request)`: cache check first,
then pending check, then start a new operation. -/
def execute (o : Options) (now : Nat) (s : State K R) (key : K) :
    State K R × Res R :=
  match Assoc.find s.cache key with
  | some cached =>
      if isCacheValid o now cached then
        ({ s with accessOrder := updateAccessOrder s.accessOrder key },
         Res.cachedHit cached.result)
      else executeMiss s key
  | none => executeMiss s key

/-- The settlement continuation installed by `execute` for `key`:
on fulfilment delete the pending entry, cache the result when `ttl` is
truthy, and return the result; on rejection delete the pending entry and
rethrow the same error.  `now` is the clock at settlement time. -/
def settle (o : Options) (now : Nat) (s : State K R) (key : K)
    (outcome : Outcome E R) : State K R × Outcome E R :=
  let s₁ := { s with pendingRequests := Assoc.eraseKey s.pendingRequests key }
  match outcome with
  | Except.ok result =>
      (if OptNat.truthy o.ttl then setCacheEntry o now s₁ key result else s₁,
       Except.ok result)
  | Except.error e => (s₁, Except.error e)

/-- `invalidate(key)` -/
def invalidate (s : State K R) (key : K) : State K R :=
  { s with
    cache := Assoc.eraseKey s.cache key,
    pendingRequests := Assoc.eraseKey s.pendingRequests key,
    accessOrder := s.accessOrder.erase key }

/-- `clear()` -/
def clear (s : State K R) : State K R :=
  { s with cache := [], pendingRequests := [], accessOrder := [] }

/-- `getStats()` -/
structure Stats where
  cacheSize : Nat
  pendingCount : Nat
  maxSize : Option Nat
  ttl : Option Nat
deriving DecidableEq, Repr

/-- `getStats()` returns raw sizes and the configured knobs. -/
def getStats (o : Options) (s : State K R) : Stats :=
  ⟨s.cache.length, s.pendingRequests.length, o.maxSize, o.ttl⟩

/-- `isPending(key)` -/
def isPending (s : State K R) (key : K) : Bool :=
  (Assoc.find s.pendingRequests key).isSome

/-- `isCached(key)`: a valid-entry check, `false` for stale-but-present
entries. -/
def isCached (o : Options) (now : Nat) (s : State K R) (key : K) : Bool :=
  match Assoc.find s.cache key with
  | some cached => isCacheValid o now cached
  | none => false

end CachedRequestCoalescer

/-! ## `createKey` (src/utils/logger.ts, lines 443-445)

`createKey(...params)` is `JSON.stringify(params)`.  The JS values a
caller may pass are modelled by `JSVal`: `undefined`, `null`, booleans,
integer-valued numbers, strings without exotic control characters, and
arrays.  `JSON.stringify` on this fragment is modelled by `jsonChars`
(producing the character list of the JSON text): inside an array,
`undefined` serialises as `null`; booleans as `true`/`false`; numbers in
decimal; strings quoted with the usual escapes; arrays bracketed with
comma-separated elements. -/

/-- Fragment of JS runtime values usable as `createKey` parameters. -/
inductive JSVal where
  | undef : JSVal
  | null : JSVal
  | bool : Bool → JSVal
  | num : Int → JSVal
  | str : String → JSVal
  | arr : List JSVal → JSVal

/-- Fuelled decimal printer for positive naturals (most significant digit
first); `fuel ≥ n` suffices since `n / 10 < n` for positive `n`. -/
def natCharsAux : Nat → Nat → List Char
  | 0, _ => []
  | fuel + 1, n =>
      if n = 0 then []
      else natCharsAux fuel (n / 10) ++ [Nat.digitChar (n % 10)]

/-- Decimal digits of `n`, most significant first (`"0"` for zero),
as `JSON.stringify` prints a non-negative integer-valued number. -/
def natChars (n : Nat) : List Char :=
  if n = 0 then ['0'] else natCharsAux n n

/-- Decimal form of an integer-valued JS number. -/
def intChars : Int → List Char
  | Int.ofNat n => natChars n
  | Int.negSucc m => '-' :: natChars (m + 1)

/-- JSON string escaping for one character (the fragment excludes the
control characters that `JSON.stringify` prints as `\uXXXX`). -/
def escapeChar (c : Char) : List Char :=
  if c = '"' then ['\\', '"']
  else if c = '\\' then ['\\', '\\']
  else if c = '\n' then ['\\', 'n']
  else if c = '\t' then ['\\', 't']
  else if c = '\r' then ['\\', 'r']
  else [c]

mutual

/-- `JSON.stringify` of one value in array-element position. -/
def jsonChars : JSVal → List Char
  | JSVal.undef => ['n', 'u', 'l', 'l']
  | JSVal.null => ['n', 'u', 'l', 'l']
  | JSVal.bool true => ['t', 'r', 'u', 'e']
  | JSVal.bool false => ['f', 'a', 'l', 's', 'e']
  | JSVal.num n => intChars n
  | JSVal.str s => '"' :: (s.data.map escapeChar).flatten ++ ['"']
  | JSVal.arr es => '[' :: jsonList es ++ [']']

/-- comma-separated serialisation of the elements of an array -/
def jsonList : List JSVal → List Char
  | [] => []
  | [v] => jsonChars v
  | v :: w :: vs => jsonChars v ++ ',' :: jsonList (w :: vs)

end

/-- `createKey(...params)`: `JSON.stringify(params)` — the parameters are
always serialised as one top-level array. -/
def createKey (params : List JSVal) : String :=
  String.mk (jsonChars (JSVal.arr params))

/-! ## Basic lemmas about the dispatch and settlement steps -/

namespace RequestCoalescer

variable {K E R : Type} [DecidableEq K]

theorem execute_pending {s : State K} {key : K} {p : Nat}
    (h : Assoc.find s.pendingRequests key = some p) :
    execute s key = (s, Res.attached p) := by
  simp [execute, h]

theorem execute_fresh {s : State K} {key : K}
    (h : Assoc.find s.pendingRequests key = none) :
    execute s key =
      ({ pendingRequests := Assoc.setKey s.pendingRequests key s.nextId,
         nextId := s.nextId + 1,
         invoked := s.invoked ++ [s.nextId] }, Res.started s.nextId) := by
  simp [execute, h]

theorem execMany_pending {s : State K} {key : K} {p : Nat}
    (h : Assoc.find s.pendingRequests key = some p) (n : Nat) :
    execMany s key n = (s, List.replicate n (Res.attached p)) := by
  induction n with
  | zero => rfl
  | succ n ih =>
      simp [execMany, execute_pending h, ih, List.replicate_succ]

end RequestCoalescer

namespace CachedRequestCoalescer

variable {K E R : Type} [DecidableEq K]

theorem executeMiss_pending {s : State K R} {key : K} {p : Nat}
    (h : Assoc.find s.pendingRequests key = some p) :
    executeMiss s key = (s, Res.attached p) := by
  simp [executeMiss, h]

theorem executeMiss_fresh {s : State K R} {key : K}
    (h : Assoc.find s.pendingRequests key = none) :
    executeMiss s key =
      ({ s with
         pendingRequests := Assoc.setKey s.pendingRequests key s.nextId,
         nextId := s.nextId + 1,
         invoked := s.invoked ++ [s.nextId] }, Res.started s.nextId) := by
  simp [executeMiss, h]

theorem execute_hit {o : Options} {now : Nat} {s : State K R} {key : K}
    {e : CacheEntry R} (hfind : Assoc.find s.cache key = some e)
    (hvalid : isCacheValid o now e = true) :
    execute o now s key =
      ({ s with accessOrder := updateAccessOrder s.accessOrder key },
       Res.cachedHit e.result) := by
  simp [execute, hfind, hvalid]

theorem execute_eq_executeMiss {o : Options} {now : Nat} {s : State K R}
    {key : K}
    (h : ∀ e, Assoc.find s.cache key = some e → isCacheValid o now e = false) :
    execute o now s key = executeMiss s key := by
  unfold execute
  cases hfind : Assoc.find s.cache key with
  | none => rfl
  | some e => simp [h e hfind]

theorem settle_error {o : Options} {now : Nat} {s : State K R} {key : K}
    {e : E} :
    settle o now s key (Except.error e) =
      ({ s with pendingRequests := Assoc.eraseKey s.pendingRequests key },
       Except.error e) := rfl

theorem settle_ok {o : Options} {now : Nat} {s : State K R} {key : K}
    {r : R} :
    settle (E := E) o now s key (Except.ok r) =
      (if OptNat.truthy o.ttl then
         setCacheEntry o now
           { s with pendingRequests := Assoc.eraseKey s.pendingRequests key }
           key r
       else { s with pendingRequests := Assoc.eraseKey s.pendingRequests key },
       Except.ok r) := rfl

theorem evictIfFull_pendingRequests (o : Options) (s : State K R) :
    (evictIfFull o s).pendingRequests = s.pendingRequests := by
  unfold evictIfFull
  split
  · cases s.accessOrder <;> rfl
  · rfl

theorem evictIfFull_nextId (o : Options) (s : State K R) :
    (evictIfFull o s).nextId = s.nextId := by
  unfold evictIfFull
  split
  · cases s.accessOrder <;> rfl
  · rfl

theorem evictIfFull_invoked (o : Options) (s : State K R) :
    (evictIfFull o s).invoked = s.invoked := by
  unfold evictIfFull
  split
  · cases s.accessOrder <;> rfl
  · rfl

theorem setCacheEntry_pendingRequests (o : Options) (now : Nat)
    (s : State K R) (key : K) (r : R) :
    (setCacheEntry o now s key r).pendingRequests = s.pendingRequests := by
  unfold setCacheEntry
  exact evictIfFull_pendingRequests o s

theorem setCacheEntry_nextId (o : Options) (now : Nat)
    (s : State K R) (key : K) (r : R) :
    (setCacheEntry o now s key r).nextId = s.nextId := by
  unfold setCacheEntry
  exact evictIfFull_nextId o s

theorem setCacheEntry_invoked (o : Options) (now : Nat)
    (s : State K R) (key : K) (r : R) :
    (setCacheEntry o now s key r).invoked = s.invoked := by
  unfold setCacheEntry
  exact evictIfFull_invoked o s

theorem settle_find_pending (o : Options) (now : Nat) (s : State K R)
    (key : K) (out : Outcome E R) :
    Assoc.find ((settle o now s key out).1).pendingRequests key = none := by
  cases out with
  | ok r =>
      rw [settle_ok]
      by_cases h : OptNat.truthy o.ttl
      · simp [h, setCacheEntry_pendingRequests]
      · simp [h]
  | error e =>
      rw [settle_error]
      simp

theorem settle_invoked (o : Options) (now : Nat) (s : State K R)
    (key : K) (out : Outcome E R) :
    ((settle o now s key out).1).invoked = s.invoked := by
  cases out with
  | ok r =>
      rw [settle_ok]
      by_cases h : OptNat.truthy o.ttl
      · simp [h, setCacheEntry_invoked]
      · simp [h]
  | error e => rfl

theorem settle_nextId (o : Options) (now : Nat) (s : State K R)
    (key : K) (out : Outcome E R) :
    ((settle o now s key out).1).nextId = s.nextId := by
  cases out with
  | ok r =>
      rw [settle_ok]
      by_cases h : OptNat.truthy o.ttl
      · simp [h, setCacheEntry_nextId]
      · simp [h]
  | error e => rfl

theorem isCacheValid_no_ttl {o : Options} (h : OptNat.truthy o.ttl = false)
    (now : Nat) (e : CacheEntry R) : isCacheValid o now e = false := by
  simp [isCacheValid, h]

theorem isCacheValid_mono {o : Options} {now now' : Nat} (hle : now ≤ now')
    {e : CacheEntry R} (h : isCacheValid o now e = false) :
    isCacheValid o now' e = false := by
  unfold isCacheValid at h ⊢
  by_cases ht : OptNat.truthy o.ttl
  · simp only [ht, if_true, decide_eq_false_iff_not, not_lt] at h ⊢
    omega
  · simp [ht]

theorem isCached_false_elim {o : Options} {now : Nat} {s : State K R}
    {key : K} (h : isCached o now s key = false) :
    ∀ e, Assoc.find s.cache key = some e → isCacheValid o now e = false := by
  intro e he
  unfold isCached at h
  rw [he] at h
  exact h

theorem isCached_mono {o : Options} {now now' : Nat} {s : State K R}
    {key : K} (hle : now ≤ now') (h : isCached o now s key = false) :
    isCached o now' s key = false := by
  unfold isCached at h ⊢
  cases hf : Assoc.find s.cache key with
  | none => rfl
  | some e =>
      rw [hf] at h
      exact isCacheValid_mono hle h

theorem executeMiss_cache (s : State K R) (key : K) :
    ((executeMiss s key).1).cache = s.cache := by
  unfold executeMiss
  cases Assoc.find s.pendingRequests key <;> rfl

theorem executeMiss_accessOrder (s : State K R) (key : K) :
    ((executeMiss s key).1).accessOrder = s.accessOrder := by
  unfold executeMiss
  cases Assoc.find s.pendingRequests key <;> rfl

theorem find_setCacheEntry_self (o : Options) (now : Nat) (s : State K R)
    (key : K) (r : R) :
    Assoc.find (setCacheEntry o now s key r).cache key = some ⟨r, now⟩ := by
  unfold setCacheEntry
  exact Assoc.find_setKey_self _ _ _

theorem execute_no_cache_entry {o : Options} {now : Nat} {s : State K R}
    {key : K} (h : Assoc.find s.cache key = none) :
    execute o now s key = executeMiss s key := by
  unfold execute
  rw [h]

end CachedRequestCoalescer

/-! ## C3 — failures propagate verbatim, are never cached, never poison -/

/-- **C3**: when the operation started for `key` fails, the settlement
continuation propagates exactly the same failure (all attached callers
hold the same promise id, so every one of them receives it), leaves the
cache and access order untouched, and removes the pending entry for
`key`; `isCached key`, if false at any time at or after the dispatch,
stays false; and a later `execute` for `key` (cache still invalid) starts
a fresh operation, logging a new invocation — the failure does not poison
the key. -/
theorem C3_failure_fanout_no_cache_no_poison
    {K R E : Type} [DecidableEq K]
    (o : CachedRequestCoalescer.Options) (now now' : Nat)
    (s : CachedRequestCoalescer.State K R) (key : K) (err : E) :
    ((CachedRequestCoalescer.settle o now s key (Except.error err)).2
        = Except.error err) ∧
    (((CachedRequestCoalescer.settle o now s key (Except.error err)).1).cache
        = s.cache) ∧
    (((CachedRequestCoalescer.settle o now s key
        (Except.error err)).1).accessOrder = s.accessOrder) ∧
    (Assoc.find ((CachedRequestCoalescer.settle o now s key
        (Except.error err)).1).pendingRequests key = none) ∧
    (CachedRequestCoalescer.isCached o now s key = false → now ≤ now' →
      CachedRequestCoalescer.isCached o now'
        (CachedRequestCoalescer.settle o now s key (Except.error err)).1 key
        = false) ∧
    (CachedRequestCoalescer.isCached o now'
        (CachedRequestCoalescer.settle o now s key (Except.error err)).1 key
        = false →
      (CachedRequestCoalescer.execute o now'
          (CachedRequestCoalescer.settle o now s key (Except.error err)).1
          key).2
        = CachedRequestCoalescer.Res.started s.nextId ∧
      ((CachedRequestCoalescer.execute o now'
          (CachedRequestCoalescer.settle o now s key (Except.error err)).1
          key).1).invoked = s.invoked ++ [s.nextId]) := by
  rw [CachedRequestCoalescer.settle_error]
  refine ⟨rfl, rfl, rfl, by simp, fun h hle => ?_, fun h => ?_⟩
  · have := CachedRequestCoalescer.isCached_mono hle h
    unfold CachedRequestCoalescer.isCached at this ⊢
    exact this
  · rw [CachedRequestCoalescer.execute_eq_executeMiss
      (CachedRequestCoalescer.isCached_false_elim h),
      CachedRequestCoalescer.executeMiss_fresh (by simp)]
    exact ⟨rfl, rfl⟩

/-- Witness for C3: a coalescer with `ttl = 1000`, an in-flight operation
for key `5` and an empty cache; the operation fails with error `4` at
time `0`, and a retry is dispatched fresh at time `1`. -/
theorem C3_failure_fanout_no_cache_no_poison_witness :
    ((CachedRequestCoalescer.settle ⟨some 1000, none⟩ 0
        (⟨[], [(5, 0)], [], 1, [0]⟩ : CachedRequestCoalescer.State Nat Nat) 5
        (Except.error (4 : Nat))).2 = Except.error 4) ∧
    (CachedRequestCoalescer.isCached ⟨some 1000, none⟩ 1
        (CachedRequestCoalescer.settle ⟨some 1000, none⟩ 0
          (⟨[], [(5, 0)], [], 1, [0]⟩ : CachedRequestCoalescer.State Nat Nat) 5
          (Except.error (4 : Nat))).1 5 = false) ∧
    ((CachedRequestCoalescer.execute ⟨some 1000, none⟩ 1
        (CachedRequestCoalescer.settle ⟨some 1000, none⟩ 0
          (⟨[], [(5, 0)], [], 1, [0]⟩ : CachedRequestCoalescer.State Nat Nat) 5
          (Except.error (4 : Nat))).1 5).2
        = CachedRequestCoalescer.Res.started 1) := by
  have h := C3_failure_fanout_no_cache_no_poison ⟨some 1000, none⟩ 0 1
    (⟨[], [(5, 0)], [], 1, [0]⟩ : CachedRequestCoalescer.State Nat Nat) 5
    (4 : Nat)
  have hcached := h.2.2.2.2.1 (by decide) (by decide)
  exact ⟨h.1, hcached, (h.2.2.2.2.2 hcached).1⟩

/-! ## C4 — a valid cache hit returns the stored value and touches nothing
else -/

/-- **C4**: when a valid (non-expired) cache entry exists for `key`,
`execute` repositions `key` as most recently used (it becomes the last
element of the access-order sequence), hands back the stored result
immediately, invokes nothing (the invocation log is unchanged), and
neither the cache nor the pending-operation map nor the id supply is
touched. -/
theorem C4_valid_hit_returns_cached_without_side_effects
    {K R : Type} [DecidableEq K]
    (o : CachedRequestCoalescer.Options) (now : Nat)
    (s : CachedRequestCoalescer.State K R) (key : K)
    (entry : CachedRequestCoalescer.CacheEntry R)
    (hfind : Assoc.find s.cache key = some entry)
    (hvalid : CachedRequestCoalescer.isCacheValid o now entry = true) :
    (CachedRequestCoalescer.execute o now s key).2
        = CachedRequestCoalescer.Res.cachedHit entry.result ∧
    ((CachedRequestCoalescer.execute o now s key).1).cache = s.cache ∧
    ((CachedRequestCoalescer.execute o now s key).1).pendingRequests
        = s.pendingRequests ∧
    ((CachedRequestCoalescer.execute o now s key).1).invoked = s.invoked ∧
    ((CachedRequestCoalescer.execute o now s key).1).nextId = s.nextId ∧
    ((CachedRequestCoalescer.execute o now s key).1).accessOrder
        = s.accessOrder.erase key ++ [key] ∧
    (((CachedRequestCoalescer.execute o now s key).1).accessOrder).getLast?
        = some key := by
  rw [CachedRequestCoalescer.execute_hit hfind hvalid]
  refine ⟨rfl, rfl, rfl, rfl, rfl, rfl, ?_⟩
  simp [CachedRequestCoalescer.updateAccessOrder]

/-- Witness for C4: a cache entry for key `5` written at time `0` is hit
at time `500` under `ttl = 1000`; keys `9` and `5` were in the access
order with `5` least recently used, and the hit repositions `5` last. -/
theorem C4_valid_hit_returns_cached_without_side_effects_witness :
    CachedRequestCoalescer.isCacheValid ⟨some 1000, none⟩ 500
        (⟨42, 0⟩ : CachedRequestCoalescer.CacheEntry Nat) = true ∧
    (CachedRequestCoalescer.execute ⟨some 1000, none⟩ 500
        (⟨[(5, ⟨42, 0⟩), (9, ⟨7, 0⟩)], [], [5, 9], 0, []⟩ :
          CachedRequestCoalescer.State Nat Nat) 5).2
      = CachedRequestCoalescer.Res.cachedHit 42 ∧
    ((CachedRequestCoalescer.execute ⟨some 1000, none⟩ 500
        (⟨[(5, ⟨42, 0⟩), (9, ⟨7, 0⟩)], [], [5, 9], 0, []⟩ :
          CachedRequestCoalescer.State Nat Nat) 5).1).accessOrder = [9, 5] := by
  have h := C4_valid_hit_returns_cached_without_side_effects
    ⟨some 1000, none⟩ 500
    (⟨[(5, ⟨42, 0⟩), (9, ⟨7, 0⟩)], [], [5, 9], 0, []⟩ :
      CachedRequestCoalescer.State Nat Nat) 5 ⟨42, 0⟩ (by decide) (by decide)
  refine ⟨by decide, h.1, ?_⟩
  rw [h.2.2.2.2.2.1]
  decide

/-! ## C5 — the validity rule, and no-TTL means pure coalescing -/

/-- **C5**: a cache entry is valid iff `ttl` is configured (present and
non-zero, matching the spec's "`>0` enables caching" and JS truthiness)
and `now - entry.timestamp < ttl`.  With no `ttl` configured no entry is
ever valid, `execute` never returns a cached result and never writes a
cache entry at settlement, while coalescing of concurrent calls still
applies (a pending operation is still attached to). -/
theorem C5_validity_rule_no_ttl_pure_coalescing
    {K R E : Type} [DecidableEq K]
    (o : CachedRequestCoalescer.Options) (now : Nat)
    (s : CachedRequestCoalescer.State K R) (key : K) (p : Nat)
    (e : CachedRequestCoalescer.CacheEntry R) (out : Outcome E R) :
    (CachedRequestCoalescer.isCacheValid o now e
        = (OptNat.truthy o.ttl && decide (now - e.timestamp < o.ttl.getD 0))) ∧
    (o.ttl = none →
      CachedRequestCoalescer.isCacheValid o now e = false) ∧
    (o.ttl = none → ∀ r : R,
      (CachedRequestCoalescer.execute o now s key).2
        ≠ CachedRequestCoalescer.Res.cachedHit r) ∧
    (o.ttl = none →
      ((CachedRequestCoalescer.settle o now s key out).1).cache = s.cache) ∧
    (o.ttl = none → Assoc.find s.pendingRequests key = some p →
      CachedRequestCoalescer.execute o now s key
        = (s, CachedRequestCoalescer.Res.attached p)) := by
  refine ⟨?_, fun h => ?_, fun h r => ?_, fun h => ?_, fun h hp => ?_⟩
  · unfold CachedRequestCoalescer.isCacheValid
    by_cases ht : OptNat.truthy o.ttl <;> simp [ht]
  · exact CachedRequestCoalescer.isCacheValid_no_ttl (by simp [h]) now e
  · rw [CachedRequestCoalescer.execute_eq_executeMiss
      (fun e' _ => CachedRequestCoalescer.isCacheValid_no_ttl (by simp [h]) now e')]
    unfold CachedRequestCoalescer.executeMiss
    cases Assoc.find s.pendingRequests key <;> simp
  · cases out with
    | ok r =>
        rw [CachedRequestCoalescer.settle_ok]
        simp [h, OptNat.truthy]
    | error er => rfl
  · rw [CachedRequestCoalescer.execute_eq_executeMiss
      (fun e' _ => CachedRequestCoalescer.isCacheValid_no_ttl (by simp [h]) now e'),
      CachedRequestCoalescer.executeMiss_pending hp]

/-- Witness for C5 with `ttl` omitted: a stale-format entry for key `5`
with any timestamp is invalid, a settlement success writes no cache
entry, and a pending promise `3` for key `5` is still attached to. -/
theorem C5_validity_rule_no_ttl_pure_coalescing_witness :
    (CachedRequestCoalescer.isCacheValid ⟨none, none⟩ 99
        (⟨42, 0⟩ : CachedRequestCoalescer.CacheEntry Nat) = false) ∧
    (((CachedRequestCoalescer.settle ⟨none, none⟩ 7
        (⟨[(5, ⟨42, 0⟩)], [(5, 3)], [5], 4, []⟩ :
          CachedRequestCoalescer.State Nat Nat) 5
        (Except.ok (11 : Nat) (ε := Nat))).1).cache = [(5, ⟨42, 0⟩)]) ∧
    (CachedRequestCoalescer.execute ⟨none, none⟩ 7
        (⟨[(5, ⟨42, 0⟩)], [(5, 3)], [5], 4, []⟩ :
          CachedRequestCoalescer.State Nat Nat) 5
      = (⟨[(5, ⟨42, 0⟩)], [(5, 3)], [5], 4, []⟩,
         CachedRequestCoalescer.Res.attached 3)) := by
  have h := C5_validity_rule_no_ttl_pure_coalescing ⟨none, none⟩ 7
    (⟨[(5, ⟨42, 0⟩)], [(5, 3)], [5], 4, []⟩ :
      CachedRequestCoalescer.State Nat Nat) 5 3
    (⟨42, 0⟩ : CachedRequestCoalescer.CacheEntry Nat)
    (Except.ok (11 : Nat) (ε := Nat))
  have h99 := C5_validity_rule_no_ttl_pure_coalescing ⟨none, none⟩ 99
    (⟨[(5, ⟨42, 0⟩)], [(5, 3)], [5], 4, []⟩ :
      CachedRequestCoalescer.State Nat Nat) 5 3
    (⟨42, 0⟩ : CachedRequestCoalescer.CacheEntry Nat)
    (Except.ok (11 : Nat) (ε := Nat))
  exact ⟨h99.2.1 rfl, h.2.2.2.1 rfl, h.2.2.2.2 rfl (by decide)⟩

/-! ## C6 — TTL expiry and refresh -/

/-- **C6**: with `ttl = T` (`T > 0`) and a cache entry for `key` created
at `entry.timestamp`: while `now - entry.timestamp < T`, `execute`
returns the stored result and invokes nothing; once
`T ≤ now - entry.timestamp`, the next `execute` (no operation in flight)
starts the operation again, and its successful settlement at time `now'`
stores the fresh result under `key` with timestamp `now'`. -/
theorem C6_ttl_expiry_and_refresh
    {K R E : Type} [DecidableEq K]
    (o : CachedRequestCoalescer.Options) (T : Nat) (hT : 0 < T)
    (httl : o.ttl = some T) (now now' : Nat)
    (s : CachedRequestCoalescer.State K R) (key : K)
    (entry : CachedRequestCoalescer.CacheEntry R) (r : R)
    (hfind : Assoc.find s.cache key = some entry) :
    (now - entry.timestamp < T →
      (CachedRequestCoalescer.execute o now s key).2
          = CachedRequestCoalescer.Res.cachedHit entry.result ∧
      ((CachedRequestCoalescer.execute o now s key).1).invoked
          = s.invoked) ∧
    (T ≤ now - entry.timestamp →
      Assoc.find s.pendingRequests key = none →
      (CachedRequestCoalescer.execute o now s key).2
          = CachedRequestCoalescer.Res.started s.nextId ∧
      ((CachedRequestCoalescer.execute o now s key).1).invoked
          = s.invoked ++ [s.nextId] ∧
      Assoc.find ((CachedRequestCoalescer.settle (E := E) o now'
            (CachedRequestCoalescer.execute o now s key).1 key
            (Except.ok r)).1).cache key
        = some ⟨r, now'⟩) := by
  have htruthy : OptNat.truthy o.ttl = true := by
    simp [httl]
    omega
  constructor
  · intro hfresh
    have hvalid : CachedRequestCoalescer.isCacheValid o now entry = true := by
      unfold CachedRequestCoalescer.isCacheValid
      rw [htruthy, if_pos rfl, httl]
      simpa using hfresh
    rw [CachedRequestCoalescer.execute_hit hfind hvalid]
    exact ⟨rfl, rfl⟩
  · intro hexp hp
    have hinvalid : ∀ e, Assoc.find s.cache key = some e →
        CachedRequestCoalescer.isCacheValid o now e = false := by
      intro e he
      rw [hfind] at he
      cases he
      unfold CachedRequestCoalescer.isCacheValid
      rw [htruthy, if_pos rfl, httl]
      simpa using Nat.not_lt.mpr hexp
    rw [CachedRequestCoalescer.execute_eq_executeMiss hinvalid,
        CachedRequestCoalescer.executeMiss_fresh hp]
    refine ⟨rfl, rfl, ?_⟩
    rw [CachedRequestCoalescer.settle_ok]
    simp only [htruthy, if_true]
    exact CachedRequestCoalescer.find_setCacheEntry_self _ _ _ _ _

/-- Witness for C6 with `ttl = 1000`: the entry for key `5` written at
time `0` is hit at time `500`; at time `1000` it is expired, a fresh
operation starts, and its success at time `1001` refreshes the entry to
`(77, 1001)`. -/
theorem C6_ttl_expiry_and_refresh_witness :
    ((CachedRequestCoalescer.execute ⟨some 1000, none⟩ 500
        (⟨[(5, ⟨42, 0⟩)], [], [5], 3, []⟩ :
          CachedRequestCoalescer.State Nat Nat) 5).2
      = CachedRequestCoalescer.Res.cachedHit 42) ∧
    ((CachedRequestCoalescer.execute ⟨some 1000, none⟩ 1000
        (⟨[(5, ⟨42, 0⟩)], [], [5], 3, []⟩ :
          CachedRequestCoalescer.State Nat Nat) 5).2
      = CachedRequestCoalescer.Res.started 3) ∧
    (Assoc.find ((CachedRequestCoalescer.settle (E := Nat) ⟨some 1000, none⟩
          1001
          (CachedRequestCoalescer.execute ⟨some 1000, none⟩ 1000
            (⟨[(5, ⟨42, 0⟩)], [], [5], 3, []⟩ :
              CachedRequestCoalescer.State Nat Nat) 5).1 5
          (Except.ok 77)).1).cache 5
      = some ⟨77, 1001⟩) := by
  have hhit := (C6_ttl_expiry_and_refresh (E := Nat) ⟨some 1000, none⟩ 1000
    (by decide) rfl 500 1001
    (⟨[(5, ⟨42, 0⟩)], [], [5], 3, []⟩ : CachedRequestCoalescer.State Nat Nat)
    5 ⟨42, 0⟩ 77 (by decide)).1 (by decide)
  have hexp := (C6_ttl_expiry_and_refresh (E := Nat) ⟨some 1000, none⟩ 1000
    (by decide) rfl 1000 1001
    (⟨[(5, ⟨42, 0⟩)], [], [5], 3, []⟩ : CachedRequestCoalescer.State Nat Nat)
    5 ⟨42, 0⟩ 77 (by decide)).2 (by decide) (by decide)
  exact ⟨hhit.1, hexp.1, hexp.2.2⟩

/-! ## C7 — LRU eviction at capacity -/

/-- **C7**: with `maxSize = M` (`M > 0`), admitting a new distinct key
into a cache already holding `M` entries evicts exactly one entry — the
key at the front of the access-order sequence: that key's entry is gone,
every other entry is untouched, the new entry is stored, the cache is
back at `M` entries, and the new key sits at the most-recently-used end.
Moreover a read hit repositions its key at the most-recently-used end,
which protects it from the next eviction: after `updateAccessOrder` the
front of the sequence (the next eviction victim) is never the accessed
key as long as another key remains. -/
theorem C7_lru_eviction_evicts_front_only
    {K R : Type} [DecidableEq K]
    (o : CachedRequestCoalescer.Options) (M now : Nat) (hM : 0 < M)
    (hmax : o.maxSize = some M)
    (s : CachedRequestCoalescer.State K R) (key lru : K) (rest : List K)
    (r : R)
    (hnd : (Assoc.keys s.cache).Nodup)
    (hlen : s.cache.length = M)
    (hao : s.accessOrder = lru :: rest)
    (hlru : lru ∈ Assoc.keys s.cache)
    (hnew : Assoc.find s.cache key = none)
    (hkey : ¬ key ∈ s.accessOrder) :
    ((CachedRequestCoalescer.setCacheEntry o now s key r).cache).length = M ∧
    Assoc.find ((CachedRequestCoalescer.setCacheEntry o now s key r).cache)
        lru = none ∧
    Assoc.find ((CachedRequestCoalescer.setCacheEntry o now s key r).cache)
        key = some ⟨r, now⟩ ∧
    (∀ j, j ≠ lru → j ≠ key →
      Assoc.find ((CachedRequestCoalescer.setCacheEntry o now s key r).cache) j
        = Assoc.find s.cache j) ∧
    (CachedRequestCoalescer.setCacheEntry o now s key r).accessOrder
        = rest ++ [key] ∧
    ((CachedRequestCoalescer.setCacheEntry o now s key r).accessOrder).getLast?
        = some key ∧
    (∀ (ao : List K) (j : K), ao.Nodup → 2 ≤ ao.length →
      (CachedRequestCoalescer.updateAccessOrder ao j).head? ≠ some j) := by
  have hkeymem : ¬ key ∈ Assoc.keys s.cache := by
    rw [Assoc.mem_keys_iff_find_isSome, hnew]
    simp
  have hkl : key ≠ lru := fun h => hkeymem (h ▸ hlru)
  have hcond : (OptNat.truthy o.maxSize = true ∧
      o.maxSize.getD 0 ≤ s.cache.length) := by
    refine ⟨?_, ?_⟩
    · simp [hmax]
      omega
    · rw [hmax]
      simp [hlen]
  have hevict : CachedRequestCoalescer.evictIfFull o s =
      { s with cache := Assoc.eraseKey s.cache lru, accessOrder := rest } := by
    unfold CachedRequestCoalescer.evictIfFull
    rw [if_pos hcond, hao]
  have hst : CachedRequestCoalescer.setCacheEntry o now s key r =
      { s with
        cache := Assoc.setKey (Assoc.eraseKey s.cache lru) key ⟨r, now⟩,
        accessOrder := CachedRequestCoalescer.updateAccessOrder rest key } := by
    unfold CachedRequestCoalescer.setCacheEntry
    rw [hevict]
  have hkrest : ¬ key ∈ rest := fun h => hkey (by rw [hao]; exact List.mem_cons_of_mem _ h)
  have hao' : CachedRequestCoalescer.updateAccessOrder rest key
      = rest ++ [key] := by
    unfold CachedRequestCoalescer.updateAccessOrder
    rw [List.erase_of_not_mem hkrest]
  refine ⟨?_, ?_, ?_, ?_, ?_, ?_, ?_⟩
  · rw [hst]
    have h1 : (Assoc.eraseKey s.cache lru).length + 1 = M := by
      rw [Assoc.length_eraseKey_of_mem hnd hlru, hlen]
    have hkey' : ¬ key ∈ Assoc.keys (Assoc.eraseKey s.cache lru) := by
      rw [Assoc.keys_eraseKey]
      intro hmem
      exact hkeymem (List.mem_of_mem_filter hmem)
    simp only [Assoc.setKey, Assoc.eraseKey_of_not_mem hkey',
      List.length_append, List.length_singleton]
    omega
  · rw [hst]
    simp only
    rw [Assoc.find_setKey_ne _ _ _ _ (fun h => hkl h.symm), Assoc.find_eraseKey,
      if_pos rfl]
  · rw [hst]
    simp only
    exact Assoc.find_setKey_self _ _ _
  · intro j hjl hjk
    rw [hst]
    simp only
    rw [Assoc.find_setKey_ne _ _ _ _ hjk, Assoc.find_eraseKey, if_neg hjl]
  · rw [hst, hao']
  · rw [hst, hao']
    simp
  · intro ao j hnod hlen2
    unfold CachedRequestCoalescer.updateAccessOrder
    cases he : ao.erase j with
    | nil =>
        exfalso
        by_cases hj : j ∈ ao
        · have := List.length_erase_of_mem hj
          rw [he] at this
          simp at this
          omega
        · rw [List.erase_of_not_mem hj] at he
          rw [he] at hlen2
          simp at hlen2
    | cons c tail =>
        have hc : c ∈ ao.erase j := by
          rw [he]
          exact List.mem_cons_self c tail
        have hcj : c ≠ j := ((List.Nodup.mem_erase_iff hnod).1 hc).1
        simp [hcj]

/-- Witness for C7 (the spec's Scenario C shape): `maxSize = 2`, keys `1`
and `2` cached with `1` most recently accessed (access order `[2, 1]`);
admitting key `3` evicts exactly key `2`, keeps key `1`, stores key `3`
and leaves access order `[1, 3]`; and repositioning inside `[2, 1]`
protects the accessed key from the front slot. -/
theorem C7_lru_eviction_evicts_front_only_witness :
    ((CachedRequestCoalescer.setCacheEntry ⟨some 1000, some 2⟩ 9
        (⟨[(1, ⟨11, 0⟩), (2, ⟨22, 0⟩)], [], [2, 1], 0, []⟩ :
          CachedRequestCoalescer.State Nat Nat) 3 33).cache).length = 2 ∧
    Assoc.find ((CachedRequestCoalescer.setCacheEntry ⟨some 1000, some 2⟩ 9
        (⟨[(1, ⟨11, 0⟩), (2, ⟨22, 0⟩)], [], [2, 1], 0, []⟩ :
          CachedRequestCoalescer.State Nat Nat) 3 33).cache) 2 = none ∧
    Assoc.find ((CachedRequestCoalescer.setCacheEntry ⟨some 1000, some 2⟩ 9
        (⟨[(1, ⟨11, 0⟩), (2, ⟨22, 0⟩)], [], [2, 1], 0, []⟩ :
          CachedRequestCoalescer.State Nat Nat) 3 33).cache) 3
      = some ⟨33, 9⟩ ∧
    Assoc.find ((CachedRequestCoalescer.setCacheEntry ⟨some 1000, some 2⟩ 9
        (⟨[(1, ⟨11, 0⟩), (2, ⟨22, 0⟩)], [], [2, 1], 0, []⟩ :
          CachedRequestCoalescer.State Nat Nat) 3 33).cache) 1
      = some ⟨11, 0⟩ ∧
    (CachedRequestCoalescer.setCacheEntry ⟨some 1000, some 2⟩ 9
        (⟨[(1, ⟨11, 0⟩), (2, ⟨22, 0⟩)], [], [2, 1], 0, []⟩ :
          CachedRequestCoalescer.State Nat Nat) 3 33).accessOrder = [1, 3] ∧
    (CachedRequestCoalescer.updateAccessOrder [2, 1] 1).head? ≠ some 1 := by
  have h := C7_lru_eviction_evicts_front_only ⟨some 1000, some 2⟩ 2 9
    (by decide) rfl
    (⟨[(1, ⟨11, 0⟩), (2, ⟨22, 0⟩)], [], [2, 1], 0, []⟩ :
      CachedRequestCoalescer.State Nat Nat) 3 2 [1] 33
    (by decide) (by decide) rfl (by decide) (by decide) (by decide)
  have h1 : Assoc.find
      ((CachedRequestCoalescer.setCacheEntry ⟨some 1000, some 2⟩ 9
        (⟨[(1, ⟨11, 0⟩), (2, ⟨22, 0⟩)], [], [2, 1], 0, []⟩ :
          CachedRequestCoalescer.State Nat Nat) 3 33).cache) 1
      = some ⟨11, 0⟩ := by
    rw [h.2.2.2.1 1 (by decide) (by decide)]
    decide
  exact ⟨h.1, h.2.1, h.2.2.1, h1, h.2.2.2.2.1,
    h.2.2.2.2.2.2 [2, 1] 1 (by decide) (by decide)⟩

/-! ## C8 — the access-order invariant -/

namespace CachedRequestCoalescer

variable {K R E : Type} [DecidableEq K]

/-- The access-order bookkeeping invariant: cache keys are pairwise
distinct (as in a JS `Map`), the access-order sequence has no duplicates,
and it lists exactly the keys present in the cache — so every cached key
appears exactly once in the sequence. -/
def Inv (s : State K R) : Prop :=
  (Assoc.keys s.cache).Nodup ∧ s.accessOrder.Nodup ∧
  ∀ k, k ∈ s.accessOrder ↔ k ∈ Assoc.keys s.cache

theorem nodup_updateAccessOrder {ao : List K} (h : ao.Nodup) (key : K) :
    (updateAccessOrder ao key).Nodup := by
  unfold updateAccessOrder
  refine List.Nodup.append (h.erase key) (List.nodup_singleton key) ?_
  intro j hj hj'
  simp only [List.mem_singleton] at hj'
  subst hj'
  exact ((List.Nodup.mem_erase_iff h).1 hj).1 rfl

theorem mem_updateAccessOrder {ao : List K} (h : ao.Nodup) (key j : K) :
    j ∈ updateAccessOrder ao key ↔ (j = key ∨ j ∈ ao) := by
  unfold updateAccessOrder
  by_cases hk : j = key
  · simp [hk]
  · simp [List.mem_append, List.Nodup.mem_erase_iff h, hk]

theorem Inv_updateAccessOrder {s : State K R} (h : Inv s) {key : K}
    (hkey : key ∈ Assoc.keys s.cache) :
    Inv { s with accessOrder := updateAccessOrder s.accessOrder key } := by
  obtain ⟨h1, h2, h3⟩ := h
  refine ⟨h1, nodup_updateAccessOrder h2 key, fun j => ?_⟩
  show j ∈ updateAccessOrder s.accessOrder key ↔ _
  rw [mem_updateAccessOrder h2]
  constructor
  · rintro (rfl | hj)
    · exact hkey
    · exact (h3 j).1 hj
  · intro hj
    by_cases hk : j = key
    · exact Or.inl hk
    · exact Or.inr ((h3 j).2 hj)

theorem Inv_parts_evict {c : List (K × CacheEntry R)} {lru : K}
    {rest : List K} (h1 : (Assoc.keys c).Nodup) (h2 : (lru :: rest).Nodup)
    (h3 : ∀ k, k ∈ lru :: rest ↔ k ∈ Assoc.keys c) :
    (Assoc.keys (Assoc.eraseKey c lru)).Nodup ∧ rest.Nodup ∧
    ∀ k, k ∈ rest ↔ k ∈ Assoc.keys (Assoc.eraseKey c lru) := by
  have hnr := List.nodup_cons.1 h2
  refine ⟨Assoc.nodup_keys_eraseKey h1 lru, hnr.2, fun j => ?_⟩
  rw [Assoc.keys_eraseKey]
  simp only [List.mem_filter, decide_eq_true_eq, ne_eq]
  constructor
  · intro hj
    refine ⟨(h3 j).1 (List.mem_cons_of_mem _ hj), ?_⟩
    rintro rfl
    exact hnr.1 hj
  · rintro ⟨hjc, hjl⟩
    rcases List.mem_cons.1 ((h3 j).2 hjc) with h | h
    · exact absurd h hjl
    · exact h

theorem Inv_parts_set {c : List (K × CacheEntry R)} {ao : List K}
    (h1 : (Assoc.keys c).Nodup) (h2 : ao.Nodup)
    (h3 : ∀ k, k ∈ ao ↔ k ∈ Assoc.keys c) (key : K) (v : CacheEntry R) :
    (Assoc.keys (Assoc.setKey c key v)).Nodup ∧
    (updateAccessOrder ao key).Nodup ∧
    ∀ k, k ∈ updateAccessOrder ao key ↔ k ∈ Assoc.keys (Assoc.setKey c key v) := by
  refine ⟨Assoc.nodup_keys_setKey h1 key v,
    nodup_updateAccessOrder h2 key, fun j => ?_⟩
  rw [mem_updateAccessOrder h2, Assoc.keys_setKey]
  by_cases hk : j = key
  · simp [hk]
  · rw [List.mem_append, Assoc.keys_eraseKey]
    simp [hk, List.mem_filter, h3 j]

theorem Inv_evictIfFull (o : Options) {s : State K R} (h : Inv s) :
    Inv (evictIfFull o s) := by
  obtain ⟨h1, h2, h3⟩ := h
  unfold evictIfFull
  split
  · cases hao : s.accessOrder with
    | nil => exact ⟨h1, h2, h3⟩
    | cons lru rest =>
        rw [hao] at h2 h3
        exact Inv_parts_evict h1 h2 h3
  · exact ⟨h1, h2, h3⟩

theorem Inv_setCacheEntry (o : Options) (now : Nat) {s : State K R}
    (h : Inv s) (key : K) (r : R) : Inv (setCacheEntry o now s key r) := by
  obtain ⟨h1, h2, h3⟩ := Inv_evictIfFull o h
  exact Inv_parts_set h1 h2 h3 key ⟨r, now⟩

theorem Inv_executeMiss {s : State K R} (h : Inv s) (key : K) :
    Inv ((executeMiss s key).1) := by
  obtain ⟨h1, h2, h3⟩ := h
  unfold executeMiss
  cases Assoc.find s.pendingRequests key with
  | none => exact ⟨h1, h2, h3⟩
  | some p => exact ⟨h1, h2, h3⟩

theorem Inv_execute (o : Options) (now : Nat) {s : State K R} (h : Inv s)
    (key : K) : Inv ((execute o now s key).1) := by
  unfold execute
  cases hf : Assoc.find s.cache key with
  | none => exact Inv_executeMiss h key
  | some e =>
      by_cases hv : isCacheValid o now e = true
      · simp only [hv, if_true]
        refine Inv_updateAccessOrder h ?_
        rw [Assoc.mem_keys_iff_find_isSome, hf]
        rfl
      · simp only [Bool.not_eq_true] at hv
        simp only [hv, Bool.false_eq_true, if_false]
        exact Inv_executeMiss h key

theorem Inv_settle (o : Options) (now : Nat) {s : State K R} (h : Inv s)
    (key : K) (out : Outcome E R) : Inv ((settle o now s key out).1) := by
  cases out with
  | error e => exact ⟨h.1, h.2.1, h.2.2⟩
  | ok r =>
      rw [settle_ok]
      by_cases ht : OptNat.truthy o.ttl
      · simp only [ht, if_true]
        exact Inv_setCacheEntry
          (s := { s with pendingRequests := Assoc.eraseKey s.pendingRequests key })
          o now ⟨h.1, h.2.1, h.2.2⟩ key r
      · simp only [ht, Bool.false_eq_true, if_false]
        exact ⟨h.1, h.2.1, h.2.2⟩

theorem Inv_invalidate {s : State K R} (h : Inv s) (key : K) :
    Inv (invalidate s key) := by
  obtain ⟨h1, h2, h3⟩ := h
  refine ⟨Assoc.nodup_keys_eraseKey h1 key, h2.erase key, fun j => ?_⟩
  show j ∈ s.accessOrder.erase key ↔ j ∈ Assoc.keys (Assoc.eraseKey s.cache key)
  rw [Assoc.keys_eraseKey, List.Nodup.mem_erase_iff h2]
  simp only [List.mem_filter, decide_eq_true_eq, ne_eq]
  constructor
  · rintro ⟨hjk, hj⟩
    exact ⟨(h3 j).1 hj, hjk⟩
  · rintro ⟨hj, hjk⟩
    exact ⟨hjk, (h3 j).2 hj⟩

theorem Inv_clear (s : State K R) : Inv (clear s) := by
  refine ⟨List.nodup_nil, List.nodup_nil, fun k => ?_⟩
  simp [clear, Assoc.keys]

theorem Inv_init : Inv (State.init : State K R) := by
  refine ⟨List.nodup_nil, List.nodup_nil, fun k => ?_⟩
  simp [State.init, Assoc.keys]

theorem getLast_setCacheEntry (o : Options) (now : Nat) (s : State K R)
    (key : K) (r : R) :
    ((setCacheEntry o now s key r).accessOrder).getLast? = some key := by
  unfold setCacheEntry
  simp [updateAccessOrder]

end CachedRequestCoalescer

/-- **C8**: the access-order invariant — the cache keys are pairwise
distinct, the access-order sequence is duplicate-free, and it contains
exactly the keys present in the cache map (hence every cached key appears
exactly once in the sequence, counted by `List.count`).  It holds for a
fresh instance and is preserved by every operation: the `execute`
dispatch, the settlement continuation (both outcomes), `invalidate` and
`clear`.  Any read hit on a valid entry and any cache write moves the
touched key to the most-recently-used end (the last position of the
sequence; the front is the least recently used, the eviction victim, per
C7). -/
theorem C8_access_order_invariant_preserved
    {K R E : Type} [DecidableEq K]
    (o : CachedRequestCoalescer.Options) (now : Nat)
    (s : CachedRequestCoalescer.State K R) (key : K) (out : Outcome E R)
    (r : R) :
    CachedRequestCoalescer.Inv
        (CachedRequestCoalescer.State.init : CachedRequestCoalescer.State K R) ∧
    (CachedRequestCoalescer.Inv s →
      CachedRequestCoalescer.Inv
        ((CachedRequestCoalescer.execute o now s key).1)) ∧
    (CachedRequestCoalescer.Inv s →
      CachedRequestCoalescer.Inv
        ((CachedRequestCoalescer.settle o now s key out).1)) ∧
    (CachedRequestCoalescer.Inv s →
      CachedRequestCoalescer.Inv (CachedRequestCoalescer.invalidate s key)) ∧
    CachedRequestCoalescer.Inv (CachedRequestCoalescer.clear s) ∧
    (CachedRequestCoalescer.Inv s → ∀ k, (Assoc.find s.cache k).isSome →
      s.accessOrder.count k = 1) ∧
    (∀ e, Assoc.find s.cache key = some e →
      CachedRequestCoalescer.isCacheValid o now e = true →
      (((CachedRequestCoalescer.execute o now s key).1).accessOrder).getLast?
        = some key) ∧
    ((CachedRequestCoalescer.setCacheEntry o now s key r).accessOrder).getLast?
        = some key := by
  refine ⟨CachedRequestCoalescer.Inv_init,
    fun h => CachedRequestCoalescer.Inv_execute o now h key,
    fun h => CachedRequestCoalescer.Inv_settle o now h key out,
    fun h => CachedRequestCoalescer.Inv_invalidate h key,
    CachedRequestCoalescer.Inv_clear s,
    fun h k hk => ?_, fun e hfind hvalid => ?_,
    CachedRequestCoalescer.getLast_setCacheEntry o now s key r⟩
  · have hmem : k ∈ s.accessOrder :=
      (h.2.2 k).2 ((Assoc.mem_keys_iff_find_isSome _ _).2 hk)
    exact List.count_eq_one_of_mem h.2.1 hmem
  · rw [CachedRequestCoalescer.execute_hit hfind hvalid]
    simp [CachedRequestCoalescer.updateAccessOrder]

/-- Witness for C8 at a concrete state: cache holding keys `5` and `9`
with access order `[5, 9]`, a valid hit on key `5` under `ttl = 1000`,
settlement of a success for key `5`, invalidation and clearing — the
invariant holds after each, key `5` is counted once, and both the read
hit and a cache write move their key to the MRU end. -/
theorem C8_access_order_invariant_preserved_witness :
    CachedRequestCoalescer.Inv
      (⟨[(5, ⟨42, 0⟩), (9, ⟨7, 0⟩)], [], [5, 9], 0, []⟩ :
        CachedRequestCoalescer.State Nat Nat) ∧
    CachedRequestCoalescer.Inv
      ((CachedRequestCoalescer.execute ⟨some 1000, none⟩ 500
        (⟨[(5, ⟨42, 0⟩), (9, ⟨7, 0⟩)], [], [5, 9], 0, []⟩ :
          CachedRequestCoalescer.State Nat Nat) 5).1) ∧
    CachedRequestCoalescer.Inv
      ((CachedRequestCoalescer.settle (E := Nat) ⟨some 1000, none⟩ 500
        (⟨[(5, ⟨42, 0⟩), (9, ⟨7, 0⟩)], [], [5, 9], 0, []⟩ :
          CachedRequestCoalescer.State Nat Nat) 5 (Except.ok 11)).1) ∧
    CachedRequestCoalescer.Inv
      (CachedRequestCoalescer.invalidate
        (⟨[(5, ⟨42, 0⟩), (9, ⟨7, 0⟩)], [], [5, 9], 0, []⟩ :
          CachedRequestCoalescer.State Nat Nat) 5) ∧
    CachedRequestCoalescer.Inv
      (CachedRequestCoalescer.clear
        (⟨[(5, ⟨42, 0⟩), (9, ⟨7, 0⟩)], [], [5, 9], 0, []⟩ :
          CachedRequestCoalescer.State Nat Nat)) ∧
    ([5, 9].count 5 = 1) ∧
    ((((CachedRequestCoalescer.execute ⟨some 1000, none⟩ 500
        (⟨[(5, ⟨42, 0⟩), (9, ⟨7, 0⟩)], [], [5, 9], 0, []⟩ :
          CachedRequestCoalescer.State Nat Nat) 5).1).accessOrder).getLast?
      = some 5) ∧
    (((CachedRequestCoalescer.setCacheEntry ⟨some 1000, none⟩ 500
        (⟨[(5, ⟨42, 0⟩), (9, ⟨7, 0⟩)], [], [5, 9], 0, []⟩ :
          CachedRequestCoalescer.State Nat Nat) 5 11).accessOrder).getLast?
      = some 5) := by
  have hinv : CachedRequestCoalescer.Inv
      (⟨[(5, ⟨42, 0⟩), (9, ⟨7, 0⟩)], [], [5, 9], 0, []⟩ :
        CachedRequestCoalescer.State Nat Nat) :=
    ⟨by decide, by decide, fun k => Iff.rfl⟩
  have h := C8_access_order_invariant_preserved (E := Nat) ⟨some 1000, none⟩ 500
    (⟨[(5, ⟨42, 0⟩), (9, ⟨7, 0⟩)], [], [5, 9], 0, []⟩ :
      CachedRequestCoalescer.State Nat Nat) 5 (Except.ok 11) 11
  refine ⟨hinv, h.2.1 hinv, h.2.2.1 hinv, h.2.2.2.1 hinv, h.2.2.2.2.1,
    h.2.2.2.2.2.1 hinv 5 (by decide),
    h.2.2.2.2.2.2.1 ⟨42, 0⟩ (by decide) (by decide),
    h.2.2.2.2.2.2.2⟩

/-! ## C10 — the settlement continuation deletes whatever entry is current -/

/-- **C10**: the continuation installed when an operation starts deletes
the pending-map entry for its key *unconditionally* at settlement time,
without checking whether the entry still belongs to it.  Hence, for both
coalescer types: start an operation for `key`, remove its bookkeeping with
`clear key` (respectively `invalidate key`), start a second operation for
`key` (a fresh invocation, promise id `nextId + 1`); when the *first*
operation now settles, its continuation removes the second operation's
pending entry, so `isPending key` is `false` even though the second
operation has not settled, and a further `execute` starts a third
operation (promise id `nextId + 2`) instead of attaching to the second.
(For the cached type the first settlement is a failure here, so no cache
hit can mask the effect.) -/
theorem C10_settlement_deletes_pending_unconditionally
    {K R E : Type} [DecidableEq K]
    (o : CachedRequestCoalescer.Options) (now now' now'' now''' : Nat)
    (s : RequestCoalescer.State K) (sc : CachedRequestCoalescer.State K R)
    (key : K) (out : Outcome E R) (err : E)
    (h0 : Assoc.find s.pendingRequests key = none)
    (hc0 : Assoc.find sc.pendingRequests key = none)
    (hcc : Assoc.find sc.cache key = none) :
    ((RequestCoalescer.execute s key).2
        = RequestCoalescer.Res.started s.nextId) ∧
    ((RequestCoalescer.execute
        (RequestCoalescer.clear (RequestCoalescer.execute s key).1 key)
        key).2 = RequestCoalescer.Res.started (s.nextId + 1)) ∧
    (RequestCoalescer.isPending
        ((RequestCoalescer.settle
          (RequestCoalescer.execute
            (RequestCoalescer.clear (RequestCoalescer.execute s key).1 key)
            key).1 key out).1) key = false) ∧
    ((RequestCoalescer.execute
        ((RequestCoalescer.settle
          (RequestCoalescer.execute
            (RequestCoalescer.clear (RequestCoalescer.execute s key).1 key)
            key).1 key out).1) key).2
        = RequestCoalescer.Res.started (s.nextId + 2)) ∧
    (((RequestCoalescer.execute
        ((RequestCoalescer.settle
          (RequestCoalescer.execute
            (RequestCoalescer.clear (RequestCoalescer.execute s key).1 key)
            key).1 key out).1) key).1).invoked
        = s.invoked ++ [s.nextId, s.nextId + 1, s.nextId + 2]) ∧
    ((CachedRequestCoalescer.execute o now sc key).2
        = CachedRequestCoalescer.Res.started sc.nextId) ∧
    ((CachedRequestCoalescer.execute o now'
        (CachedRequestCoalescer.invalidate
          (CachedRequestCoalescer.execute o now sc key).1 key) key).2
        = CachedRequestCoalescer.Res.started (sc.nextId + 1)) ∧
    (CachedRequestCoalescer.isPending
        ((CachedRequestCoalescer.settle o now''
          (CachedRequestCoalescer.execute o now'
            (CachedRequestCoalescer.invalidate
              (CachedRequestCoalescer.execute o now sc key).1 key) key).1
          key (Except.error err)).1) key = false) ∧
    ((CachedRequestCoalescer.execute o now'''
        ((CachedRequestCoalescer.settle o now''
          (CachedRequestCoalescer.execute o now'
            (CachedRequestCoalescer.invalidate
              (CachedRequestCoalescer.execute o now sc key).1 key) key).1
          key (Except.error err)).1) key).2
        = CachedRequestCoalescer.Res.started (sc.nextId + 2)) := by
  refine ⟨?_, ?_, ?_, ?_, ?_, ?_, ?_, ?_, ?_⟩ <;>
    simp [RequestCoalescer.execute, RequestCoalescer.clear,
      RequestCoalescer.settle, RequestCoalescer.isPending,
      CachedRequestCoalescer.execute, CachedRequestCoalescer.executeMiss,
      CachedRequestCoalescer.invalidate, CachedRequestCoalescer.settle,
      CachedRequestCoalescer.isPending, h0, hc0, hcc]

/-- Witness for C10 on fresh coalescers with key `5`: the second started
operation's entry is erased by the first operation's settlement, and a
third operation starts while the second is still in flight. -/
theorem C10_settlement_deletes_pending_unconditionally_witness :
    (RequestCoalescer.isPending
        ((RequestCoalescer.settle
          (RequestCoalescer.execute
            (RequestCoalescer.clear
              (RequestCoalescer.execute
                (⟨[], 0, []⟩ : RequestCoalescer.State Nat) 5).1 5) 5).1
          5 (Except.ok (37 : Nat) (ε := Nat))).1) 5 = false) ∧
    ((RequestCoalescer.execute
        ((RequestCoalescer.settle
          (RequestCoalescer.execute
            (RequestCoalescer.clear
              (RequestCoalescer.execute
                (⟨[], 0, []⟩ : RequestCoalescer.State Nat) 5).1 5) 5).1
          5 (Except.ok (37 : Nat) (ε := Nat))).1) 5).2
        = RequestCoalescer.Res.started 2) ∧
    (CachedRequestCoalescer.isPending
        ((CachedRequestCoalescer.settle ⟨some 1000, none⟩ 2
          (CachedRequestCoalescer.execute ⟨some 1000, none⟩ 1
            (CachedRequestCoalescer.invalidate
              (CachedRequestCoalescer.execute ⟨some 1000, none⟩ 0
                (⟨[], [], [], 0, []⟩ : CachedRequestCoalescer.State Nat Nat)
                5).1 5) 5).1 5 (Except.error (4 : Nat))).1) 5 = false) ∧
    ((CachedRequestCoalescer.execute ⟨some 1000, none⟩ 3
        ((CachedRequestCoalescer.settle ⟨some 1000, none⟩ 2
          (CachedRequestCoalescer.execute ⟨some 1000, none⟩ 1
            (CachedRequestCoalescer.invalidate
              (CachedRequestCoalescer.execute ⟨some 1000, none⟩ 0
                (⟨[], [], [], 0, []⟩ : CachedRequestCoalescer.State Nat Nat)
                5).1 5) 5).1 5 (Except.error (4 : Nat))).1) 5).2
        = CachedRequestCoalescer.Res.started 2) := by
  have h := C10_settlement_deletes_pending_unconditionally ⟨some 1000, none⟩
    0 1 2 3 (⟨[], 0, []⟩ : RequestCoalescer.State Nat)
    (⟨[], [], [], 0, []⟩ : CachedRequestCoalescer.State Nat Nat) 5
    (Except.ok (37 : Nat) (ε := Nat)) (4 : Nat) (by decide) (by decide)
    (by decide)
  exact ⟨h.2.2.1, h.2.2.2.1, h.2.2.2.2.2.2.2.1, h.2.2.2.2.2.2.2.2⟩

/-! ## C9 — `createKey` stability and injectivity

The decimal printer agrees with `Nat.digits`, and the serialisation of
flat lists of JSON-distinguishable primitives (`null`, booleans, integer
numbers) is injective; but `undefined` and `null` serialise identically,
so `createKey` is not injective on all structurally-distinct inputs. -/

theorem natCharsAux_eq_digits (fuel : Nat) :
    ∀ n : Nat, n ≤ fuel →
      natCharsAux fuel n = ((Nat.digits 10 n).map Nat.digitChar).reverse := by
  induction fuel with
  | zero =>
      intro n h
      have hn : n = 0 := Nat.le_zero.mp h
      subst hn
      simp [natCharsAux]
  | succ fuel ih =>
      intro n h
      by_cases hn : n = 0
      · subst hn
        simp [natCharsAux]
      · rw [natCharsAux, if_neg hn]
        have hdiv : n / 10 ≤ fuel := by
          have : n / 10 < n :=
            Nat.div_lt_self (Nat.pos_of_ne_zero hn) (by norm_num)
          omega
        rw [ih _ hdiv,
          Nat.digits_def' (by norm_num : (1 : ℕ) < 10) (Nat.pos_of_ne_zero hn)]
        simp

theorem natChars_eq_digits {n : Nat} (hn : n ≠ 0) :
    natChars n = ((Nat.digits 10 n).map Nat.digitChar).reverse := by
  rw [natChars, if_neg hn]
  exact natCharsAux_eq_digits n n le_rfl

/-- the ten decimal digit characters -/
def digitCharList : List Char :=
  ['0', '1', '2', '3', '4', '5', '6', '7', '8', '9']

theorem digitChar_mem_digitCharList {d : Nat} (h : d < 10) :
    Nat.digitChar d ∈ digitCharList := by
  interval_cases d <;> decide

theorem digitChar_inj {a b : Nat} (ha : a < 10) (hb : b < 10)
    (h : Nat.digitChar a = Nat.digitChar b) : a = b := by
  interval_cases a <;> interval_cases b <;>
    first
    | rfl
    | exact absurd h (by decide)

theorem mem_natChars {n : Nat} {c : Char} (h : c ∈ natChars n) :
    c ∈ digitCharList := by
  by_cases hn : n = 0
  · subst hn
    simp [natChars] at h
    subst h
    decide
  · rw [natChars_eq_digits hn, List.mem_reverse] at h
    obtain ⟨d, hd, rfl⟩ := List.mem_map.1 h
    exact digitChar_mem_digitCharList (Nat.digits_lt_base (by norm_num) hd)

theorem natChars_ne_nil (n : Nat) : natChars n ≠ [] := by
  by_cases hn : n = 0
  · subst hn
    simp [natChars]
  · rw [natChars_eq_digits hn]
    simp [hn, Nat.digits_ne_nil_iff_ne_zero]

theorem map_digitChar_inj :
    ∀ l₁ l₂ : List Nat, (∀ d ∈ l₁, d < 10) → (∀ d ∈ l₂, d < 10) →
      l₁.map Nat.digitChar = l₂.map Nat.digitChar → l₁ = l₂ := by
  intro l₁
  induction l₁ with
  | nil =>
      intro l₂ _ _ h
      cases l₂ with
      | nil => rfl
      | cons b t => simp at h
  | cons a t ih =>
      intro l₂ h₁ h₂ h
      cases l₂ with
      | nil => simp at h
      | cons b t₂ =>
          simp only [List.map_cons, List.cons.injEq] at h
          have hab : a = b :=
            digitChar_inj (h₁ a (List.mem_cons_self a t))
              (h₂ b (List.mem_cons_self b t₂)) h.1
          subst hab
          rw [ih t₂ (fun d hd => h₁ d (List.mem_cons_of_mem _ hd))
            (fun d hd => h₂ d (List.mem_cons_of_mem _ hd)) h.2]

theorem eq_zero_of_natChars_eq_singleton {n : Nat}
    (h : natChars n = ['0']) : n = 0 := by
  by_contra hn
  rw [natChars_eq_digits hn] at h
  have h' : (Nat.digits 10 n).map Nat.digitChar = ['0'] := by
    have := congrArg List.reverse h
    simpa using this
  have hlen := congrArg List.length h'
  simp at hlen
  obtain ⟨d, hd⟩ := List.length_eq_one.1 hlen
  rw [hd] at h'
  simp at h'
  have hd10 : d < 10 :=
    Nat.digits_lt_base (by norm_num)
      (by rw [hd]; exact List.mem_singleton_self d)
  have hd0 : d = 0 := digitChar_inj hd10 (by norm_num) (by rw [h']; rfl)
  subst hd0
  have hofd := Nat.ofDigits_digits 10 n
  rw [hd] at hofd
  simp [Nat.ofDigits] at hofd
  exact hn hofd.symm

theorem natChars_injective : ∀ {m n : Nat}, natChars m = natChars n → m = n := by
  intro m n h
  by_cases hm : m = 0 <;> by_cases hn : n = 0
  · omega
  · exfalso
    subst hm
    have h0 : natChars 0 = ['0'] := rfl
    exact hn (eq_zero_of_natChars_eq_singleton (h.symm.trans h0))
  · exfalso
    subst hn
    have h0 : natChars 0 = ['0'] := rfl
    exact hm (eq_zero_of_natChars_eq_singleton (h.trans h0))
  · rw [natChars_eq_digits hm, natChars_eq_digits hn] at h
    have h2 : (Nat.digits 10 m).map Nat.digitChar
        = (Nat.digits 10 n).map Nat.digitChar := List.reverse_injective h
    have h3 := map_digitChar_inj _ _
      (fun d hd => Nat.digits_lt_base (by norm_num) hd)
      (fun d hd => Nat.digits_lt_base (by norm_num) hd) h2
    have hm' := Nat.ofDigits_digits 10 m
    rw [h3] at hm'
    exact hm'.symm.trans (Nat.ofDigits_digits 10 n)

theorem mem_intChars {a : Int} {c : Char} (h : c ∈ intChars a) :
    c = '-' ∨ c ∈ digitCharList := by
  cases a with
  | ofNat n => exact Or.inr (mem_natChars h)
  | negSucc m =>
      simp only [intChars, List.mem_cons] at h
      rcases h with h | h
      · exact Or.inl h
      · exact Or.inr (mem_natChars h)

theorem intChars_ne_nil (a : Int) : intChars a ≠ [] := by
  cases a with
  | ofNat n => exact natChars_ne_nil n
  | negSucc m => simp [intChars]

theorem intChars_injective : ∀ {a b : Int}, intChars a = intChars b → a = b := by
  intro a b h
  cases a with
  | ofNat n =>
      cases b with
      | ofNat n' => exact congrArg Int.ofNat (natChars_injective h)
      | negSucc m =>
          exfalso
          have hmem : '-' ∈ natChars n := by
            rw [show natChars n = intChars (Int.ofNat n) from rfl, h]
            exact List.mem_cons_self _ _
          rcases mem_natChars hmem with h'
          exact absurd h' (by decide)
  | negSucc m =>
      cases b with
      | ofNat n' =>
          exfalso
          have hmem : '-' ∈ natChars n' := by
            rw [show natChars n' = intChars (Int.ofNat n') from rfl, ← h]
            exact List.mem_cons_self _ _
          rcases mem_natChars hmem with h'
          exact absurd h' (by decide)
      | negSucc m' =>
          simp only [intChars, List.cons.injEq, true_and] at h
          have hmm : m + 1 = m' + 1 := natChars_injective h
          have : m = m' := by omega
          rw [this]

/-- Flat JSON-distinguishable primitives: the injectivity fragment of the
`createKey` parameter space. -/
inductive Prim where
  | null : Prim
  | bool : Bool → Prim
  | num : Int → Prim
deriving DecidableEq

/-- embedding of a flat primitive into the JS value fragment -/
def Prim.toJS : Prim → JSVal
  | Prim.null => JSVal.null
  | Prim.bool b => JSVal.bool b
  | Prim.num n => JSVal.num n

theorem jsonChars_toJS_ne_nil (p : Prim) : jsonChars p.toJS ≠ [] := by
  cases p with
  | null => decide
  | bool b => cases b <;> decide
  | num n => exact intChars_ne_nil n

theorem jsonChars_toJS_comma_free (p : Prim) :
    ∀ c ∈ jsonChars p.toJS, c ≠ ',' := by
  intro c hc hcon
  subst hcon
  cases p with
  | null => exact absurd hc (by decide)
  | bool b => cases b <;> exact absurd hc (by decide)
  | num n =>
      have hc' : (',' : Char) ∈ intChars n := hc
      rcases mem_intChars hc' with h | h
      · exact absurd h (by decide)
      · exact absurd h (by decide)

theorem primTok_injective :
    ∀ p q : Prim, jsonChars p.toJS = jsonChars q.toJS → p = q := by
  have hnum : ∀ (n : Int) (c : Char) (l : List Char),
      (c = 'n' ∨ c = 't' ∨ c = 'f') → jsonChars (JSVal.num n) = c :: l →
      False := by
    intro n c l hcmem h
    have hmem : c ∈ intChars n := by
      rw [show intChars n = jsonChars (JSVal.num n) from rfl, h]
      exact List.mem_cons_self _ _
    rcases mem_intChars hmem with h' | h' <;>
      rcases hcmem with rfl | rfl | rfl <;>
        exact absurd h' (by decide)
  intro p q h
  cases p with
  | null =>
      cases q with
      | null => rfl
      | bool b => cases b <;> exact absurd h (by decide)
      | num b => exact absurd (hnum b 'n' _ (by decide) h.symm) id
  | bool a =>
      cases q with
      | null => cases a <;> exact absurd h (by decide)
      | bool b =>
          cases a <;> cases b <;>
            first
            | rfl
            | exact absurd h (by decide)
      | num b =>
          cases a with
          | true => exact absurd (hnum b 't' _ (by decide) h.symm) id
          | false => exact absurd (hnum b 'f' _ (by decide) h.symm) id
  | num a =>
      cases q with
      | null => exact absurd (hnum a 'n' _ (by decide) h) id
      | bool b =>
          cases b with
          | true => exact absurd (hnum a 't' _ (by decide) h) id
          | false => exact absurd (hnum a 'f' _ (by decide) h) id
      | num b => exact congrArg Prim.num (intChars_injective h)

/-- the separator-and-tail part of `jsonList` after the first element -/
def jsonSep : List JSVal → List Char
  | [] => []
  | w :: ws => ',' :: jsonList (w :: ws)

theorem jsonList_cons (v : JSVal) (vs : List JSVal) :
    jsonList (v :: vs) = jsonChars v ++ jsonSep vs := by
  cases vs with
  | nil => simp [jsonList, jsonSep]
  | cons w ws => rfl

theorem jsonSep_shape (vs : List JSVal) :
    jsonSep vs = [] ∨ ∃ w, jsonSep vs = ',' :: w := by
  cases vs with
  | nil => exact Or.inl rfl
  | cons w ws => exact Or.inr ⟨jsonList (w :: ws), rfl⟩

theorem token_sep_cancel :
    ∀ t₁ t₂ r₁ r₂ : List Char,
      (∀ c ∈ t₁, c ≠ ',') → (∀ c ∈ t₂, c ≠ ',') →
      (r₁ = [] ∨ ∃ w, r₁ = ',' :: w) → (r₂ = [] ∨ ∃ w, r₂ = ',' :: w) →
      t₁ ++ r₁ = t₂ ++ r₂ → t₁ = t₂ ∧ r₁ = r₂ := by
  intro t₁
  induction t₁ with
  | nil =>
      intro t₂ r₁ r₂ hc₁ hc₂ hs₁ hs₂ heq
      simp only [List.nil_append] at heq
      cases t₂ with
      | nil => exact ⟨rfl, by simpa using heq⟩
      | cons d t' =>
          exfalso
          rcases hs₁ with rfl | ⟨w, rfl⟩
          · simp at heq
          · simp only [List.cons_append, List.cons.injEq] at heq
            exact hc₂ d (List.mem_cons_self d t') heq.1.symm
  | cons c t ih =>
      intro t₂ r₁ r₂ hc₁ hc₂ hs₁ hs₂ heq
      cases t₂ with
      | nil =>
          exfalso
          simp only [List.nil_append, List.cons_append] at heq
          rcases hs₂ with rfl | ⟨w, rfl⟩
          · simp at heq
          · simp only [List.cons.injEq] at heq
            exact hc₁ c (List.mem_cons_self c t) heq.1
      | cons d t' =>
          simp only [List.cons_append, List.cons.injEq] at heq
          obtain ⟨rfl, heq'⟩ := heq
          obtain ⟨h1, h2⟩ := ih t' r₁ r₂
            (fun x hx => hc₁ x (List.mem_cons_of_mem _ hx))
            (fun x hx => hc₂ x (List.mem_cons_of_mem _ hx)) hs₁ hs₂ heq'
          exact ⟨by rw [h1], h2⟩

theorem jsonList_map_toJS_injective :
    ∀ xs ys : List Prim,
      jsonList (xs.map Prim.toJS) = jsonList (ys.map Prim.toJS) → xs = ys := by
  intro xs
  induction xs with
  | nil =>
      intro ys h
      cases ys with
      | nil => rfl
      | cons y ys' =>
          exfalso
          rw [List.map_cons, jsonList_cons] at h
          cases hc : jsonChars y.toJS with
          | nil => exact jsonChars_toJS_ne_nil y hc
          | cons a l =>
              rw [hc] at h
              simp [jsonList] at h
  | cons x xs' ih =>
      intro ys h
      cases ys with
      | nil =>
          exfalso
          rw [List.map_cons, jsonList_cons] at h
          cases hc : jsonChars x.toJS with
          | nil => exact jsonChars_toJS_ne_nil x hc
          | cons a l =>
              rw [hc] at h
              simp [jsonList] at h
      | cons y ys' =>
          rw [List.map_cons, List.map_cons, jsonList_cons, jsonList_cons] at h
          obtain ⟨h1, h2⟩ := token_sep_cancel _ _ _ _
            (jsonChars_toJS_comma_free x) (jsonChars_toJS_comma_free y)
            (jsonSep_shape _) (jsonSep_shape _) h
          have hxy := primTok_injective x y h1
          subst hxy
          cases xs' with
          | nil =>
              cases ys' with
              | nil => rfl
              | cons z zs =>
                  exfalso
                  rw [List.map_cons] at h2
                  simp [jsonSep] at h2
          | cons u us =>
              cases ys' with
              | nil =>
                  exfalso
                  rw [List.map_cons] at h2
                  simp [jsonSep] at h2
              | cons z zs =>
                  rw [List.map_cons, List.map_cons] at h2
                  simp only [jsonSep, List.cons.injEq, true_and] at h2
                  have := ih (z :: zs)
                    (by rw [List.map_cons, List.map_cons]; exact h2)
                  rw [this]

theorem createKey_map_toJS_injective (xs ys : List Prim)
    (h : createKey (xs.map Prim.toJS) = createKey (ys.map Prim.toJS)) :
    xs = ys := by
  have h1 : jsonChars (JSVal.arr (xs.map Prim.toJS))
      = jsonChars (JSVal.arr (ys.map Prim.toJS)) := congrArg String.data h
  have h1' : ('[' : Char) :: (jsonList (xs.map Prim.toJS) ++ [']'])
      = '[' :: (jsonList (ys.map Prim.toJS) ++ [']']) := h1
  have h2 : jsonList (xs.map Prim.toJS) ++ [']']
      = jsonList (ys.map Prim.toJS) ++ [']'] := by
    injection h1'
  exact jsonList_map_toJS_injective xs ys (List.append_cancel_right h2)

/-- **C9 counterexample**: `undefined` and `null` are structurally
different JS values, yet `JSON.stringify` serialises both as `null` in
array position, so the one-element parameter lists `[undefined]` and
`[null]` are different and produce the same key — the claim's
unqualified "structurally different lists produce different keys" fails
on the code. -/
theorem C9_createKey_collision_counterexample :
    createKey [JSVal.undef] = createKey [JSVal.null] ∧
    ([JSVal.undef] : List JSVal) ≠ [JSVal.null] := by
  refine ⟨rfl, fun h => ?_⟩
  injection h with h1 _
  exact JSVal.noConfusion h1

/-- **C9 (amended)**: `createKey` is a pure function on ordered parameter
lists: structurally equal lists always produce the same key, and
structurally different lists produce different keys whenever JSON
distinguishes their values — shown here for all flat lists of `null`,
boolean and integer primitives, on which `createKey` is injective — but
not in general: values with identical JSON serialisation collide, e.g.
`undefined` and `null` produce the same key. -/
theorem C9_createKey_stable_and_injective_on_distinguishable :
    (∀ xs ys : List JSVal, xs = ys → createKey xs = createKey ys) ∧
    (∀ xs ys : List Prim,
      createKey (xs.map Prim.toJS) = createKey (ys.map Prim.toJS) → xs = ys) ∧
    createKey [JSVal.undef] = createKey [JSVal.null] :=
  ⟨fun xs ys h => by rw [h], createKey_map_toJS_injective, rfl⟩

/-- Witness for the amended C9: stability at a concrete list, and the
keys of `[1]` and `[2]` differ (via injectivity: were they equal the two
lists would be equal). -/
theorem C9_createKey_stable_and_injective_witness :
    createKey [JSVal.bool true, JSVal.num 7]
      = createKey [JSVal.bool true, JSVal.num 7] ∧
    createKey ([Prim.num 1].map Prim.toJS)
      ≠ createKey ([Prim.num 2].map Prim.toJS) := by
  refine ⟨C9_createKey_stable_and_injective_on_distinguishable.1 _ _ rfl,
    fun h => ?_⟩
  have h2 := C9_createKey_stable_and_injective_on_distinguishable.2.1
    [Prim.num 1] [Prim.num 2] h
  injection h2 with h3 _
  injection h3 with h4
  exact absurd h4 (by decide)

/-! ## C1 — concurrent calls for one key coalesce into one invocation -/

/-- **C1**: if a pending operation exists for `key` when `execute` is
dispatched, the caller is attached to that same promise and the state is
unchanged — in particular this caller's thunk is never invoked (the
invocation log does not grow).  This holds for `RequestCoalescer`
unconditionally and for `CachedRequestCoalescer` whenever the cache check
did not hit (no valid entry).  Consequently, `n + 1` `execute` dispatches
for `key` all issued before the first one settles hand every caller the
same promise id `s.nextId` (the first as a fresh start, the rest
attached), and the underlying operation is invoked exactly once. -/
theorem C1_concurrent_calls_coalesce
    {K R : Type} [DecidableEq K]
    (o : CachedRequestCoalescer.Options) (now : Nat)
    (s : RequestCoalescer.State K) (sc : CachedRequestCoalescer.State K R)
    (key : K) (p : Nat) (n : Nat) :
    (Assoc.find s.pendingRequests key = some p →
      RequestCoalescer.execute s key = (s, RequestCoalescer.Res.attached p)) ∧
    ((∀ e, Assoc.find sc.cache key = some e →
        CachedRequestCoalescer.isCacheValid o now e = false) →
      Assoc.find sc.pendingRequests key = some p →
      CachedRequestCoalescer.execute o now sc key =
        (sc, CachedRequestCoalescer.Res.attached p)) ∧
    (Assoc.find s.pendingRequests key = none →
      (RequestCoalescer.execMany s key (n + 1)).2 =
          RequestCoalescer.Res.started s.nextId ::
            List.replicate n (RequestCoalescer.Res.attached s.nextId) ∧
      (RequestCoalescer.execMany s key (n + 1)).1.invoked =
          s.invoked ++ [s.nextId]) := by
  refine ⟨fun h => RequestCoalescer.execute_pending h,
          fun hc hp => ?_, fun h => ?_⟩
  · rw [CachedRequestCoalescer.execute_eq_executeMiss hc,
        CachedRequestCoalescer.executeMiss_pending hp]
  · have h1 := RequestCoalescer.execute_fresh h
    have hfind : Assoc.find
        (({ pendingRequests := Assoc.setKey s.pendingRequests key s.nextId,
            nextId := s.nextId + 1, invoked := s.invoked ++ [s.nextId] } :
          RequestCoalescer.State K)).pendingRequests key = some s.nextId :=
      Assoc.find_setKey_self _ _ _
    have h2 := RequestCoalescer.execMany_pending hfind n
    refine ⟨?_, ?_⟩ <;> simp [RequestCoalescer.execMany, h1, h2]

/-- Witness for C1 at a concrete instance: key `5` has pending promise `7`
in a `RequestCoalescer` state and in a `CachedRequestCoalescer` state with
an empty cache, and three concurrent calls on a fresh coalescer all share
promise id `0` while the thunk runs once. -/
theorem C1_concurrent_calls_coalesce_witness :
    (RequestCoalescer.execute (⟨[(5, 7)], 8, [7]⟩ : RequestCoalescer.State Nat) 5
      = (⟨[(5, 7)], 8, [7]⟩, RequestCoalescer.Res.attached 7)) ∧
    (CachedRequestCoalescer.execute (R := Nat) {} 0
        (⟨[], [(5, 7)], [], 8, [7]⟩ : CachedRequestCoalescer.State Nat Nat) 5
      = (⟨[], [(5, 7)], [], 8, [7]⟩, CachedRequestCoalescer.Res.attached 7)) ∧
    ((RequestCoalescer.execMany
        (⟨[], 0, []⟩ : RequestCoalescer.State Nat) 5 3).2 =
      [RequestCoalescer.Res.started 0, RequestCoalescer.Res.attached 0,
       RequestCoalescer.Res.attached 0] ∧
     (RequestCoalescer.execMany
        (⟨[], 0, []⟩ : RequestCoalescer.State Nat) 5 3).1.invoked = [0]) := by
  have h := C1_concurrent_calls_coalesce (R := Nat) {} 0
    (⟨[(5, 7)], 8, [7]⟩ : RequestCoalescer.State Nat)
    (⟨[], [(5, 7)], [], 8, [7]⟩ : CachedRequestCoalescer.State Nat Nat) 5 7 2
  refine ⟨h.1 (by decide), h.2.1 (fun e he => by cases he) (by decide), ?_, ?_⟩
  · have h3 := (C1_concurrent_calls_coalesce (R := Nat) {} 0
      (⟨[], 0, []⟩ : RequestCoalescer.State Nat)
      (⟨[], [(5, 7)], [], 8, [7]⟩ : CachedRequestCoalescer.State Nat Nat)
      5 7 2).2.2 (by decide)
    simpa using h3.1
  · have h3 := (C1_concurrent_calls_coalesce (R := Nat) {} 0
      (⟨[], 0, []⟩ : RequestCoalescer.State Nat)
      (⟨[], [(5, 7)], [], 8, [7]⟩ : CachedRequestCoalescer.State Nat Nat)
      5 7 2).2.2 (by decide)
    simpa using h3.2

/-! ## C2 — settlement removes the pending entry; sequential calls run twice -/

/-- **C2**: the settlement continuation removes the pending-map entry for
its key on success and on failure alike, in the very step that produces
the propagated outcome (the returned state already lacks the entry when
the outcome is handed out, and the outcome is passed through unchanged).
Therefore two `execute` dispatches for `key` separated by a full
settlement each start fresh work: the promise ids are distinct consecutive
ids and the invocation log grows by both.  Shown for `RequestCoalescer`
unconditionally and for `CachedRequestCoalescer`; for the latter the
sequential re-invocation is stated in pure-coalescing mode (no `ttl`),
where no cache hit can intervene. -/
theorem C2_settlement_clears_pending_sequential_runs_twice
    {K R E : Type} [DecidableEq K]
    (o : CachedRequestCoalescer.Options) (now now' : Nat)
    (s : RequestCoalescer.State K) (sc : CachedRequestCoalescer.State K R)
    (key : K) (out : Outcome E R) (outc : Outcome E R) :
    (Assoc.find ((RequestCoalescer.settle s key out).1).pendingRequests key
        = none ∧
     (RequestCoalescer.settle s key out).2 = out) ∧
    (Assoc.find
        ((CachedRequestCoalescer.settle o now sc key outc).1).pendingRequests
        key = none) ∧
    (Assoc.find s.pendingRequests key = none →
      (RequestCoalescer.execute s key).2
          = RequestCoalescer.Res.started s.nextId ∧
      (RequestCoalescer.execute
          ((RequestCoalescer.settle (RequestCoalescer.execute s key).1 key
            out).1) key).2
          = RequestCoalescer.Res.started (s.nextId + 1) ∧
      ((RequestCoalescer.execute
          ((RequestCoalescer.settle (RequestCoalescer.execute s key).1 key
            out).1) key).1).invoked
          = s.invoked ++ [s.nextId, s.nextId + 1]) ∧
    (o.ttl = none → Assoc.find sc.pendingRequests key = none →
      (CachedRequestCoalescer.execute o now sc key).2
          = CachedRequestCoalescer.Res.started sc.nextId ∧
      (CachedRequestCoalescer.execute o now'
          ((CachedRequestCoalescer.settle o now
            (CachedRequestCoalescer.execute o now sc key).1 key outc).1)
          key).2
          = CachedRequestCoalescer.Res.started (sc.nextId + 1) ∧
      ((CachedRequestCoalescer.execute o now'
          ((CachedRequestCoalescer.settle o now
            (CachedRequestCoalescer.execute o now sc key).1 key outc).1)
          key).1).invoked
          = sc.invoked ++ [sc.nextId, sc.nextId + 1]) := by
  refine ⟨⟨?_, ?_⟩, CachedRequestCoalescer.settle_find_pending o now sc key outc,
          fun h => ?_, fun httl hp => ?_⟩
  · simp [RequestCoalescer.settle]
  · rfl
  · rw [RequestCoalescer.execute_fresh h]
    simp only [RequestCoalescer.settle]
    rw [RequestCoalescer.execute_fresh (by simp)]
    simp
  · have hvalid : ∀ (e : CachedRequestCoalescer.CacheEntry R),
        CachedRequestCoalescer.isCacheValid o now e = false :=
      fun e => CachedRequestCoalescer.isCacheValid_no_ttl (by simp [httl]) now e
    have hvalid' : ∀ (e : CachedRequestCoalescer.CacheEntry R),
        CachedRequestCoalescer.isCacheValid o now' e = false :=
      fun e => CachedRequestCoalescer.isCacheValid_no_ttl (by simp [httl]) now' e
    rw [CachedRequestCoalescer.execute_eq_executeMiss (fun e _ => hvalid e),
        CachedRequestCoalescer.executeMiss_fresh hp]
    have httl' : OptNat.truthy o.ttl = false := by simp [httl]
    cases outc with
    | ok r =>
        rw [CachedRequestCoalescer.settle_ok]
        simp only [httl', if_false]
        rw [CachedRequestCoalescer.execute_eq_executeMiss (fun e _ => hvalid' e),
            CachedRequestCoalescer.executeMiss_fresh (by simp)]
        simp
    | error e =>
        rw [CachedRequestCoalescer.settle_error]
        rw [CachedRequestCoalescer.execute_eq_executeMiss (fun e _ => hvalid' e),
            CachedRequestCoalescer.executeMiss_fresh (by simp)]
        simp

/-- Witness for C2: settling key `5` on both coalescers clears the
pending entry; on fresh instances two sequential `execute`/settle rounds
for key `5` start promise ids `0` then `1` and log two invocations. -/
theorem C2_settlement_clears_pending_sequential_runs_twice_witness :
    (Assoc.find ((RequestCoalescer.settle
        (⟨[(5, 0)], 1, [0]⟩ : RequestCoalescer.State Nat) 5
        (Except.ok (37 : Nat) (ε := Nat))).1).pendingRequests 5 = none ∧
     (RequestCoalescer.settle
        (⟨[(5, 0)], 1, [0]⟩ : RequestCoalescer.State Nat) 5
        (Except.ok (37 : Nat) (ε := Nat))).2 = Except.ok 37) ∧
    (Assoc.find
        ((CachedRequestCoalescer.settle {} 0
          (⟨[], [(5, 0)], [], 1, [0]⟩ : CachedRequestCoalescer.State Nat Nat)
          5 (Except.error (4 : Nat))).1).pendingRequests 5 = none) ∧
    ((RequestCoalescer.execute
        (⟨[], 0, []⟩ : RequestCoalescer.State Nat) 5).2
        = RequestCoalescer.Res.started 0 ∧
     (RequestCoalescer.execute
        ((RequestCoalescer.settle
          (RequestCoalescer.execute
            (⟨[], 0, []⟩ : RequestCoalescer.State Nat) 5).1 5
          (Except.ok (37 : Nat) (ε := Nat))).1) 5).2
        = RequestCoalescer.Res.started 1 ∧
     ((RequestCoalescer.execute
        ((RequestCoalescer.settle
          (RequestCoalescer.execute
            (⟨[], 0, []⟩ : RequestCoalescer.State Nat) 5).1 5
          (Except.ok (37 : Nat) (ε := Nat))).1) 5).1).invoked = [0, 1]) ∧
    ((CachedRequestCoalescer.execute {} 0
        (⟨[], [], [], 0, []⟩ : CachedRequestCoalescer.State Nat Nat) 5).2
        = CachedRequestCoalescer.Res.started 0 ∧
     (CachedRequestCoalescer.execute {} 1
        ((CachedRequestCoalescer.settle {} 0
          (CachedRequestCoalescer.execute {} 0
            (⟨[], [], [], 0, []⟩ : CachedRequestCoalescer.State Nat Nat) 5).1
          5 (Except.error (4 : Nat))).1) 5).2
        = CachedRequestCoalescer.Res.started 1 ∧
     ((CachedRequestCoalescer.execute {} 1
        ((CachedRequestCoalescer.settle {} 0
          (CachedRequestCoalescer.execute {} 0
            (⟨[], [], [], 0, []⟩ : CachedRequestCoalescer.State Nat Nat) 5).1
          5 (Except.error (4 : Nat))).1) 5).1).invoked = [0, 1]) := by
  have h1 := C2_settlement_clears_pending_sequential_runs_twice {} 0 1
    (⟨[(5, 0)], 1, [0]⟩ : RequestCoalescer.State Nat)
    (⟨[], [(5, 0)], [], 1, [0]⟩ : CachedRequestCoalescer.State Nat Nat)
    5 (Except.ok (37 : Nat) (ε := Nat)) (Except.error (4 : Nat))
  have h2 := C2_settlement_clears_pending_sequential_runs_twice {} 0 1
    (⟨[], 0, []⟩ : RequestCoalescer.State Nat)
    (⟨[], [], [], 0, []⟩ : CachedRequestCoalescer.State Nat Nat)
    5 (Except.ok (37 : Nat) (ε := Nat)) (Except.error (4 : Nat))
  exact ⟨h1.1, h1.2.1, h2.2.2.1 (by decide), h2.2.2.2 rfl (by decide)⟩
